import Mathlib

/-!
# lane_detect: the lane tracker and steering estimator of `src/lane_detection.cpp`

A shallow embedding of the algorithmic core of `tpv::LaneDetectorObject`
(segment filter, cluster means, lane selection, steering estimate), followed
by theorems that settle statements of the specification against it.

Conventions of the embedding.

* C++ `int` is `Int` (no wrap-around is modelled; image coordinates are far
  from the 32-bit range).  Integer division `/` of C++ truncates toward zero and
  is `Int.tdiv`.
* `float`/`double` values are elements of a linear ordered field `α`
  (instantiated with `ℝ` in the theorems, and usable with `ℚ` for evaluation);
  rounding error of IEEE arithmetic is not modelled.  The functions of the C
  maths library that the source calls (`sqrt`, `atan`, `atan2`) and the constant
  `CV_PI` are arguments of the definitions that use them; the theorems pass
  `Real.sqrt`, `Real.arctan`, `fun a b => Complex.arg ⟨b, a⟩` and `Real.pi`.
* `abs` applied to a `float` is the floating-point absolute value, and the
  comparisons of `angle` with 15 are comparisons of real numbers.
* A floating-point value that is not a number is `none`: the square root of a
  negative number (`euclide_dist`) and a division by zero that is converted to
  `int` (`get_point`).
* Library code that is called but is not part of the repository's source
  (`cv::partition`, `cv::Vec4i::operator/=`), the header-only helper `c_qsort`
  of `utils.h`, the macro `DISTANCE_CALC_BIN_THRESHOLD` and the indeterminate
  initial contents of the automatic array `count_line` are collected in
  `GrpEnv` and taken as parameters.
-/

namespace LaneDetect

/-- The OpenCV type `cv::Vec4i` holding a segment `(x1,y1)-(x2,y2)`:
`l[0] = x1`, `l[1] = y1`, `l[2] = x2`, `l[3] = y2`. -/
structure Vec4i where
  x1 : Int
  y1 : Int
  x2 : Int
  y2 : Int
deriving DecidableEq

/-- The OpenCV type `cv::Point` (integer coordinates). -/
structure Point where
  x : Int
  y : Int
deriving DecidableEq

/-- The sentinel `static cv::Vec4i NIL_LANE = cv::Vec4i();` (all components zero). -/
def NIL_LANE : Vec4i := ⟨0, 0, 0, 0⟩

/-- Component-wise sum, the `+=` of `cv::Vec4i`. -/
def Vec4i.add (a b : Vec4i) : Vec4i :=
  ⟨a.x1 + b.x1, a.y1 + b.y1, a.x2 + b.x2, a.y2 + b.y2⟩

/-- The members of `LaneDetectorObject` that the lane tracker and the steering
estimator read or write: the configuration (`_sky_line`, `_lane_width`,
`_width`, `_height`, `_car_position`) and the tracked lanes.  The colour and
binary thresholds are used by the image preprocessing only and are left out. -/
structure LaneDetectorObject where
  _sky_line : Int
  _lane_width : Int
  _width : Int
  _height : Int
  _car_position : Point
  _left_lane : Vec4i
  _right_lane : Vec4i
  _pre_lane : Vec4i
deriving DecidableEq

/-- Conversion of a floating-point value to `int`: truncation toward zero. -/
def truncToInt (q : ℚ) : Int := if 0 ≤ q then ⌊q⌋ else ⌈q⌉

/-- The radicand of `euclide_dist` after the preprocessor has expanded
`#define SQUARE(x)(x*x)`: the text `SQUARE(l[0] - l[2]) + SQUARE(l[1] - l[3])`
becomes `(l[0] - l[2]*l[0] - l[2]) + (l[1] - l[3]*l[1] - l[3])`, computed in `int`. -/
def euclide_radicand (l : Vec4i) : Int :=
  (l.x1 - l.x2 * l.x1 - l.x2) + (l.y1 - l.y2 * l.y1 - l.y2)

/-- The function `euclide_dist`: `sqrt` of the expanded radicand; `none` stands
for the not-a-number that `sqrt` returns on a negative argument. -/
def euclide_dist {α : Type} [LinearOrderedField α] (sqrt : α → α) (l : Vec4i) : Option α :=
  if euclide_radicand l < 0 then none else some (sqrt ((euclide_radicand l : Int) : α))

/-- The function `angle`: `(atan2(l[2] - l[0], l[3] - l[1]) * 180) / CV_PI`. -/
def angle {α : Type} [LinearOrderedField α] (atan2 : α → α → α) (pi : α) (l : Vec4i) : α :=
  (atan2 ((l.x2 - l.x1 : Int) : α) ((l.y2 - l.y1 : Int) : α) * 180) / pi

/-- The function `get_point`:
`cv::Point((y - l[1]) * (l[0] - l[2]) / (l[1] - l[3]) + l[0], y)`, a floating-point
expression converted to `int`.  When `l[1] = l[3]` the quotient is infinite or
not a number and its conversion to `int` is undefined: `none`. -/
def get_point (l : Vec4i) (y : ℚ) : Option Point :=
  if l.y1 - l.y2 = 0 then none
  else some ⟨truncToInt ((y - l.y1) * (l.x1 - l.x2) / (l.y1 - l.y2) + l.x1), truncToInt y⟩

/-- The predicate `DistanceCalc::operator()`:
`abs(angle(a) - angle(b)) < DISTANCE_CALC_BIN_THRESHOLD`. -/
def DistanceCalc {α : Type} [LinearOrderedField α] (atan2 : α → α → α) (pi : α)
    (threshold : α) (a b : Vec4i) : Bool :=
  decide (|angle atan2 pi a - angle atan2 pi b| < threshold)

/-- The method `_err_angle`, reading the member `_car_position`. -/
def _err_angle {α : Type} [LinearOrderedField α] (atan : α → α) (pi : α)
    (s : LaneDetectorObject) (p : Point) : α :=
  if p.x = s._car_position.x then 0
  else if p.y = s._car_position.y then (if p.x < s._car_position.x then -90 else 90)
  else
    let dx : α := ((p.x - s._car_position.x : Int) : α)
    let dy : α := ((s._car_position.y - p.y : Int) : α)
    if dx < 0 then (-(atan (-dx / dy))) * 180 / pi
    else atan (dx / dy) * 180 / pi

/-- The point `dst` that `get_err_angle` hands to `_err_angle`.  The source
evaluates `p1`, `p2` and `pr` before it tests the lanes; an intercept that is
undefined (`none`) makes the result undefined only on the paths that read it. -/
def get_err_angle_dst (s : LaneDetectorObject) : Option Point :=
  let dst : Point := ⟨s._width.tdiv 2, s._height.tdiv 2⟩
  let p1 := get_point s._left_lane (s._height.tdiv 2 : Int)
  let p2 := get_point s._right_lane (s._width.tdiv 2 : Int)
  let pr : Option Int :=
    if s._pre_lane ≠ NIL_LANE then
      (get_point s._pre_lane (s._height.tdiv 2 : Int)).map (fun q => q.x)
    else some (s._width.tdiv 2)
  if s._left_lane ≠ NIL_LANE ∧ s._right_lane ≠ NIL_LANE then
    match p1, p2, pr with
    | some a, some b, some r =>
      if |(a.x + b.x).tdiv 2 - r| < 30 then
        some { dst with x := (a.x + b.x).tdiv 2 }
      else
        some { dst with x := ((a.x + b.x).tdiv 2 + r).tdiv 2 }
    | _, _, _ => none
  else if s._right_lane ≠ NIL_LANE then
    match p2 with
    | some b => some { dst with x := b.x - s._lane_width.tdiv 2 }
    | none => none
  else if s._left_lane ≠ NIL_LANE then
    match p1 with
    | some a => some { dst with x := a.x + s._lane_width.tdiv 2 }
    | none => none
  else some dst

/-- The method `get_err_angle`: the angle `_err_angle(dst)` together with the
object after the call.  The method assigns no member. -/
def get_err_angle {α : Type} [LinearOrderedField α] (atan : α → α) (pi : α)
    (s : LaneDetectorObject) : Option α × LaneDetectorObject :=
  ((get_err_angle_dst s).map (_err_angle atan pi s), s)

/-- The number of iterations of `for (int w = 0; w < bound; w++)` for a
floating-point `bound`; a comparison with not-a-number is false. -/
def loop_count {α : Type} [LinearOrderedField α] [FloorRing α] (bound : Option α) : Nat :=
  match bound with
  | none => 0
  | some b => Int.toNat ⌈b⌉

/-- The loop of `fit_lane_2_line` over the segments `lines` returned by
`cv::HoughLinesP`; the result is the vector `vec`. -/
def fit_lane_2_line {α : Type} [LinearOrderedField α] [FloorRing α]
    (sqrt : α → α) (atan2 : α → α → α) (pi : α)
    (s : LaneDetectorObject) (lines : List Vec4i) (weight : α) : List Vec4i :=
  lines.flatMap fun l =>
    let length := euclide_dist sqrt l
    let line_angle := angle atan2 pi l
    if |line_angle| < 15 then []
    else if l.y1 < s._sky_line ∨ l.y2 < s._sky_line then []
    else if weight ≠ 0 then
      let p : α := if l.y1 > s._height.tdiv 3 * 2 ∨ l.y2 > s._height.tdiv 3 * 2 then 10 else 0
      List.replicate (loop_count (length.map fun len => (⌈len / weight⌉ : α) + p)) l
    else [l]

/-- What `grp_line` calls but the source file does not define.

* `threshold`: the macro `DISTANCE_CALC_BIN_THRESHOLD`.
* `partition pred lines`: OpenCV's `cv::partition(lines, labels, pred)`, giving
  the vector `labels` and the returned number of classes.
* `c_qsort count_line idx count`: the helper `c_qsort<int, int>` of `utils.h`,
  giving the two arrays after the call.
* `vec_div v n`: OpenCV's `v /= n` on a `cv::Vec4i`.
* `count_line_init k`: the indeterminate value that the automatic array
  `int count_line[count]` holds at index `k` before the first increment (the
  source does not initialise it). -/
structure GrpEnv (α : Type) where
  threshold : α
  partition : (Vec4i → Vec4i → Bool) → List Vec4i → List Nat × Nat
  c_qsort : List Int → List Nat → Nat → List Int × List Nat
  vec_div : Vec4i → Int → Vec4i
  count_line_init : Nat → Int

/-- The first half of `grp_line` (after the guard on an empty input): the
number of classes `count` and the array `mean` as they stand when the lanes
are selected.  An array access outside its bounds is `none`. -/
def grp_line_mean {α : Type} [LinearOrderedField α] (atan2 : α → α → α) (pi : α)
    (env : GrpEnv α) (lines : List Vec4i) : Option (Nat × List Vec4i) :=
  let labels := (env.partition (DistanceCalc atan2 pi env.threshold) lines).1
  let count := (env.partition (DistanceCalc atan2 pi env.threshold) lines).2
  let count_line0 : List Int := (List.range count).map env.count_line_init
  let idx0 : List Nat := List.range count
  let mean0 : List Vec4i := List.replicate count NIL_LANE
  -- for (i < labels.size()) { count_line[labels[i]]++; mean[labels[i]] = Vec4i(0,0,0,0); }
  (labels.foldlM (fun (st : List Int × List Vec4i) (lab : Nat) =>
      match st.1.get? lab with
      | some c => if lab < st.2.length then some (st.1.set lab (c + 1), st.2.set lab ⟨0, 0, 0, 0⟩)
                  else none
      | none => none) (count_line0, mean0)).bind fun st1 =>
  -- c_qsort<int, int>(count_line, idx, count);
  let count_line := (env.c_qsort st1.1 idx0 count).1
  let idx := (env.c_qsort st1.1 idx0 count).2
  -- for (i < lines.size()) mean[idx[labels[i]]] += lines[i];
  ((List.range lines.length).foldlM (fun (mean : List Vec4i) (i : Nat) =>
      match lines.get? i, labels.get? i with
      | some l, some lab =>
        match idx.get? lab with
        | some j =>
          match mean.get? j with
          | some m => some (mean.set j (m.add l))
          | none => none
        | none => none
      | _, _ => none) st1.2).bind fun mean2 =>
  -- for (i < count) mean[idx[i]] /= count_line[idx[i]];
  ((List.range count).foldlM (fun (mean : List Vec4i) (i : Nat) =>
      match idx.get? i with
      | some j =>
        match mean.get? j, count_line.get? j with
        | some m, some c => some (mean.set j (env.vec_div m c))
        | _, _ => none
      | none => none) mean2).bind fun mean3 =>
  some (count, mean3)

/-- The method `grp_line`: the object after the call, `none` when the call
reads an array outside its bounds or compares an undefined intercept. -/
def grp_line {α : Type} [LinearOrderedField α] (atan2 : α → α → α) (pi : α)
    (env : GrpEnv α) (s : LaneDetectorObject) (lines : List Vec4i) : Option LaneDetectorObject :=
  if lines.length = 0 then some s
  else
    match grp_line_mean atan2 pi env lines with
    | none => none
    | some (count, mean) =>
      let s0 := { s with _left_lane := NIL_LANE, _right_lane := NIL_LANE }
      if count ≥ 2 then
        match mean.get? 0, mean.get? 1 with
        | some m0, some m1 =>
          if 15 < |angle atan2 pi m0| ∧ 15 < |angle atan2 pi m1| then
            match get_point m0 (s._height : Int), get_point m1 (s._height : Int) with
            | some a, some b =>
              if a.x < b.x then some { s0 with _left_lane := m0, _right_lane := m1 }
              else some { s0 with _left_lane := m1, _right_lane := m0 }
            | _, _ => none
          else some s0
        | _, _ => none
      else
        match mean.get? 0 with
        | some m0 =>
          match get_point m0 (s._height : Int) with
          | some a =>
            if a.x < s._width.tdiv 2 then some { s0 with _left_lane := m0 }
            else some { s0 with _right_lane := m0 }
          | none => none
        | none => none

/-- The method `update` on the segments `hough` that `cv::HoughLinesP` returns
for the preprocessed frame: `fit_lane_2_line(im_binary, lines, 10)` followed by
`grp_line(lines)`.  Resizing, preprocessing and the drawing of the overlay act
on images only. -/
def update {α : Type} [LinearOrderedField α] [FloorRing α]
    (sqrt : α → α) (atan2 : α → α → α) (pi : α) (env : GrpEnv α)
    (s : LaneDetectorObject) (hough : List Vec4i) : Option LaneDetectorObject :=
  grp_line atan2 pi env s (fit_lane_2_line sqrt atan2 pi s hough 10)

/-! ## Concrete inputs used by the evaluations below -/

/-- A component-wise truncating division of a `cv::Vec4i`, used to instantiate
`GrpEnv.vec_div` in the evaluations; it agrees with OpenCV's `/=` whenever every
component is a multiple of the divisor (in particular for the divisor 1). -/
def vec_tdiv (v : Vec4i) (n : Int) : Vec4i :=
  ⟨v.x1.tdiv n, v.y1.tdiv n, v.x2.tdiv n, v.y2.tdiv n⟩

/-- An environment for the evaluations: `cv::partition` puts every segment in
a class of its own (labels `0, 1, ...` in input order), `c_qsort` finds the
counts already in order, and `count_line` starts at zero. -/
def exampleEnv (α : Type) [LinearOrderedField α] : GrpEnv α :=
  { threshold := 10
    partition := fun _ lines => (List.range lines.length, lines.length)
    c_qsort := fun count_line idx _ => (count_line, idx)
    vec_div := vec_tdiv
    count_line_init := fun _ => 0 }

/-- A 400x480 detector with the car at the bottom centre and no lane tracked. -/
def freshTracker : LaneDetectorObject :=
  { _sky_line := 100, _lane_width := 100, _width := 400, _height := 480,
    _car_position := ⟨200, 480⟩,
    _left_lane := NIL_LANE, _right_lane := NIL_LANE, _pre_lane := NIL_LANE }

/-- The detector `freshTracker` with the sky line at row 0. -/
def openSky : LaneDetectorObject :=
  { freshTracker with _sky_line := 0 }

/-- Scenario D of the specification: lane intercepts 100 and 300 (`mid = 200`)
and a previous lane anchored at `x = 260`. -/
def scenarioD : LaneDetectorObject :=
  { freshTracker with
    _left_lane := ⟨100, 0, 100, 480⟩, _right_lane := ⟨300, 0, 300, 480⟩,
    _pre_lane := ⟨260, 0, 260, 480⟩ }

/-- Only the right lane is tracked, on a frame that is not square. -/
def rightOnly : LaneDetectorObject :=
  { freshTracker with _right_lane := ⟨300, 480, 200, 0⟩ }

/-- No lane is tracked and the car reference point is left of the frame centre. -/
def carOffCentre : LaneDetectorObject :=
  { freshTracker with _car_position := ⟨100, 480⟩ }

/-- The car reference point lies above the row `height/2` of the target point. -/
def carAbove : LaneDetectorObject :=
  { freshTracker with _car_position := ⟨200, 100⟩ }

/-- Both lanes are tracked from an earlier frame. -/
def staleLanes : LaneDetectorObject :=
  { freshTracker with
    _left_lane := ⟨100, 480, 150, 240⟩, _right_lane := ⟨300, 480, 250, 240⟩ }

/-- The endpoint-swapped segment `(x2,y2)-(x1,y1)` of `(x1,y1)-(x2,y2)`. -/
def Vec4i.swap (l : Vec4i) : Vec4i := ⟨l.x2, l.y2, l.x1, l.y1⟩

/-- The sum of a list of segments, as the loop `mean[..] += lines[i]` builds it
from the zero vector. -/
def vec_sum (lines : List Vec4i) : Vec4i := lines.foldl Vec4i.add NIL_LANE

/-! ## The segments handed to `get_point` -/

/-- The segments to which `get_err_angle` applies `get_point` to obtain `pr`:
`_pre_lane`, and only when the test `_pre_lane != NIL_LANE` succeeds. -/
def get_err_angle_pr_args (s : LaneDetectorObject) : List Vec4i :=
  if s._pre_lane ≠ NIL_LANE then [s._pre_lane] else []

/-- The segments to which `get_err_angle` applies `get_point`, in the order of
evaluation: `_left_lane` for `p1` and `_right_lane` for `p2`, both ahead of every
test, then the segment for `pr`. -/
def get_err_angle_get_point_args (s : LaneDetectorObject) : List Vec4i :=
  [s._left_lane, s._right_lane] ++ get_err_angle_pr_args s

/-- The segments to which `grp_line` applies `get_point`: none on an empty
input, `mean[0]` and `mean[1]` for two or more classes when both pass the angle
check, `mean[0]` for a single class. -/
def grp_line_get_point_args {α : Type} [LinearOrderedField α] (atan2 : α → α → α) (pi : α)
    (env : GrpEnv α) (lines : List Vec4i) : Option (List Vec4i) :=
  if lines.length = 0 then some []
  else
    match grp_line_mean atan2 pi env lines with
    | none => none
    | some (count, mean) =>
      if count ≥ 2 then
        match mean.get? 0, mean.get? 1 with
        | some m0, some m1 =>
          if 15 < |angle atan2 pi m0| ∧ 15 < |angle atan2 pi m1| then some [m0, m1]
          else some []
        | _, _ => none
      else
        match mean.get? 0 with
        | some m0 => some [m0]
        | none => none

/-- The segments to which `update` applies `get_point` when it draws the
overlay: each lane twice (rows `_height` and `_height / 2`), and only a lane that
is not NIL. -/
def update_draw_get_point_args (s : LaneDetectorObject) : List Vec4i :=
  (if s._left_lane ≠ NIL_LANE then [s._left_lane, s._left_lane] else []) ++
  (if s._right_lane ≠ NIL_LANE then [s._right_lane, s._right_lane] else [])

/-! ## Further concrete inputs -/

/-- Only the left lane is tracked. -/
def leftOnly : LaneDetectorObject :=
  { freshTracker with _left_lane := ⟨100, 480, 150, 240⟩ }

/-- An environment in which `cv::partition` puts all segments in one class and
the array `count_line` holds `residue` before the first increment. -/
def oneClassEnv (α : Type) [LinearOrderedField α] (residue : Int) : GrpEnv α :=
  { threshold := 10
    partition := fun _ lines => (lines.map (fun _ => 0), 1)
    c_qsort := fun count_line idx _ => (count_line, idx)
    vec_div := vec_tdiv
    count_line_init := fun _ => residue }

/-- Modelled from the spec: the helper `c_qsort` of `utils.h` is not in the
source.  It sorts its first array (`count_line`, the member counts) into
descending order and applies the same permutation to its second array (`idx`);
equal counts keep their order. -/
def c_qsort_desc (count_line : List Int) (idx : List Nat) (_count : Nat) :
    List Int × List Nat :=
  ((count_line.zip idx).insertionSort (fun a b => a.1 ≥ b.1)).unzip

/-- The labels that `cv::partition` gives when exactly the equal segments are
related: classes are numbered in the order of their first member. -/
def label_equal_segments (lines : List Vec4i) : List Nat × Nat :=
  (lines.map (fun l => lines.eraseDups.indexOf l), lines.eraseDups.length)

/-- An environment in which equal segments form the classes, `c_qsort` ranks
the classes by descending member count, and `count_line` starts at zero. -/
def rankedEnv (α : Type) [LinearOrderedField α] : GrpEnv α :=
  { threshold := 10
    partition := fun _ lines => label_equal_segments lines
    c_qsort := c_qsort_desc
    vec_div := vec_tdiv
    count_line_init := fun _ => 0 }

/-- Six segments in three classes of 1, 3 and 2 members, whose angles (about
104, 168 and -166 degrees) differ pairwise by more than 10 degrees. -/
def threeClusters : List Vec4i :=
  [⟨0, 300, 400, 200⟩,
   ⟨100, 480, 150, 240⟩, ⟨100, 480, 150, 240⟩, ⟨100, 480, 150, 240⟩,
   ⟨300, 480, 240, 240⟩, ⟨300, 480, 240, 240⟩]

/-- The list `threeClusters` with another segment in the class of one member. -/
def threeClustersAlt : List Vec4i :=
  [⟨0, 300, 400, 100⟩,
   ⟨100, 480, 150, 240⟩, ⟨100, 480, 150, 240⟩, ⟨100, 480, 150, 240⟩,
   ⟨300, 480, 240, 240⟩, ⟨300, 480, 240, 240⟩]

/-! ## Auxiliary lemmas -/

theorem truncToInt_div_pos (n d : Int) (hd : 0 < d) :
    truncToInt ((n : ℚ) / d) = n.tdiv d := by
  obtain ⟨k, rfl⟩ := Int.eq_ofNat_of_zero_le hd.le
  have hk : (0 : ℚ) < ((k : Int) : ℚ) := by exact_mod_cast hd
  unfold truncToInt
  by_cases hn : 0 ≤ n
  · have hq : (0 : ℚ) ≤ (n : ℚ) / ((k : Int) : ℚ) :=
      div_nonneg (by exact_mod_cast hn) hk.le
    rw [if_pos hq, Int.tdiv_eq_ediv hn hd.le]
    exact_mod_cast Rat.floor_intCast_div_natCast n k
  · have hn' : n < 0 := lt_of_not_ge hn
    have hq : ¬ (0 : ℚ) ≤ (n : ℚ) / ((k : Int) : ℚ) := by
      rw [not_le]
      exact div_neg_of_neg_of_pos (by exact_mod_cast hn') hk
    rw [if_neg hq]
    have h1 : ⌈(n : ℚ) / ((k : Int) : ℚ)⌉ = -⌊((-n : Int) : ℚ) / ((k : Int) : ℚ)⌋ := by
      rw [← Int.ceil_neg]
      congr 1
      push_cast
      ring
    have h2 : ⌊((-n : Int) : ℚ) / ((k : Int) : ℚ)⌋ = (-n) / (k : Int) := by
      exact_mod_cast Rat.floor_intCast_div_natCast (-n) k
    rw [h1, h2, ← Int.tdiv_eq_ediv (by omega) hd.le, Int.neg_tdiv, neg_neg]

/-- Truncating a quotient of integers is the truncating integer division. -/
theorem truncToInt_div (n d : Int) (hd : d ≠ 0) :
    truncToInt ((n : ℚ) / d) = n.tdiv d := by
  rcases lt_or_gt_of_ne hd with h | h
  · have h' : 0 < -d := by omega
    have := truncToInt_div_pos (-n) (-d) h'
    rw [Int.neg_tdiv_neg] at this
    rw [← this]
    congr 1
    push_cast
    rw [neg_div_neg_eq]
  · exact truncToInt_div_pos n d h

theorem truncToInt_intCast (y : Int) : truncToInt (y : ℚ) = y := by
  unfold truncToInt
  split <;> simp

/-- For an integer row `y`, `get_point` is a truncating integer division. -/
theorem get_point_intCast (l : Vec4i) (y : Int) :
    get_point l (y : ℚ) =
      if l.y1 - l.y2 = 0 then none
      else some ⟨((y - l.y1) * (l.x1 - l.x2) + l.x1 * (l.y1 - l.y2)).tdiv (l.y1 - l.y2), y⟩ := by
  unfold get_point
  by_cases h : l.y1 - l.y2 = 0
  · simp [h]
  · rw [if_neg h, if_neg h, truncToInt_intCast, ← truncToInt_div _ _ h]
    have hq : ((l.y1 : ℚ) - l.y2) ≠ 0 := by exact_mod_cast h
    congr 3
    push_cast
    field_simp

theorem tdiv_two_bounds (a : Int) : a - 1 ≤ 2 * a.tdiv 2 ∧ 2 * a.tdiv 2 ≤ a + 1 := by
  by_cases h : 0 ≤ a
  · rw [Int.tdiv_eq_ediv h (by decide)]
    omega
  · have h1 : a.tdiv 2 = -((-a) / 2) := by
      rw [← Int.tdiv_eq_ediv (by omega) (by decide), Int.neg_tdiv, neg_neg]
    rw [h1]
    omega

theorem arctan_pos_of_pos {x : ℝ} (hx : 0 < x) : 0 < Real.arctan x := by
  have := Real.arctan_strictMono hx
  rwa [Real.arctan_zero] at this

/-- A segment whose second endpoint is higher in the image than its first
(`y2 < y1`) has an `angle` of more than 90 degrees in absolute value. -/
theorem angle_gt_of_y2_lt_y1 (l : Vec4i) (h : l.y2 < l.y1) :
    90 < |angle (fun a b => Complex.arg ⟨b, a⟩) Real.pi l| := by
  have hre : ¬ 0 ≤ (⟨((l.y2 - l.y1 : Int) : ℝ), ((l.x2 - l.x1 : Int) : ℝ)⟩ : ℂ).re := by
    simp only [not_le]
    rw [Int.cast_lt_zero]; omega
  have harg : Real.pi / 2 <
      |(⟨((l.y2 - l.y1 : Int) : ℝ), ((l.x2 - l.x1 : Int) : ℝ)⟩ : ℂ).arg| := by
    by_contra hle
    exact hre (Complex.abs_arg_le_pi_div_two_iff.mp (not_lt.mp hle))
  have hpi := Real.pi_pos
  unfold angle
  rw [abs_div, abs_mul, abs_of_pos hpi, abs_of_pos (show (0 : ℝ) < 180 by norm_num),
    lt_div_iff₀ hpi]
  nlinarith

/-- With a non-zero weight, a segment whose expanded radicand is negative is
never copied to the output: its length is not a number. -/
theorem fit_lane_2_line_nan (s : LaneDetectorObject) (l : Vec4i)
    (hr : euclide_radicand l < 0) :
    fit_lane_2_line Real.sqrt (fun a b => Complex.arg ⟨b, a⟩) Real.pi s [l] 10 = [] := by
  simp only [fit_lane_2_line, List.flatMap_cons, List.flatMap_nil, List.append_nil,
    euclide_dist, if_pos hr, Option.map_none', loop_count, List.replicate_zero]
  split
  · rfl
  · split
    · rfl
    · split <;> simp_all

theorem ceil_sqrt_seventy : ⌈Real.sqrt 70 / 10⌉ = 1 := by
  rw [Int.ceil_eq_iff]
  have h0 : 0 < Real.sqrt 70 := Real.sqrt_pos.mpr (by norm_num)
  have h1 : Real.sqrt 70 ≤ 10 := by
    rw [Real.sqrt_le_left (by norm_num)]
    norm_num
  constructor
  · simp only [Int.cast_one, sub_self]
    positivity
  · simp only [Int.cast_one]
    linarith

/-- The segment `(30,40)-(0,0)` passes both tests of the filter and is copied
once for the weight 10: the expanded radicand is `30 + 40 = 70`. -/
theorem fit_lane_2_line_short_length :
    fit_lane_2_line Real.sqrt (fun a b => Complex.arg ⟨b, a⟩) Real.pi openSky
      [⟨30, 40, 0, 0⟩] 10 = [⟨30, 40, 0, 0⟩] := by
  have ha := angle_gt_of_y2_lt_y1 ⟨30, 40, 0, 0⟩ (by decide)
  have ha' : ¬ |angle (fun a b => Complex.arg ⟨b, a⟩) Real.pi ⟨30, 40, 0, 0⟩| < 15 := by
    rw [not_lt]; linarith
  have hr : euclide_radicand ⟨30, 40, 0, 0⟩ = 70 := by decide
  simp only [fit_lane_2_line, List.flatMap_cons, List.flatMap_nil, List.append_nil, if_neg ha',
    euclide_dist, hr]
  have hb : ¬ (Int.tdiv 480 3 * 2 < (40 : Int) ∨ Int.tdiv 480 3 * 2 < (0 : Int)) := by decide
  norm_num [openSky, freshTracker, loop_count, ceil_sqrt_seventy, hb]

/-- The method `grp_line` never assigns `_pre_lane`. -/
theorem grp_line_keeps_pre_lane {α : Type} [LinearOrderedField α] (atan2 : α → α → α) (pi : α)
    (env : GrpEnv α) (s s1 : LaneDetectorObject) (lines : List Vec4i)
    (h : grp_line atan2 pi env s lines = some s1) : s1._pre_lane = s._pre_lane := by
  unfold grp_line at h
  repeat' split at h
  all_goals first
    | (cases h; rfl)
    | cases h

/-- One segment on the left half of the frame becomes the left lane. -/
theorem grp_line_one_segment :
    grp_line (fun a b => Complex.arg ⟨b, a⟩) Real.pi (exampleEnv ℝ) freshTracker
      [⟨100, 480, 150, 240⟩] = some { freshTracker with _left_lane := ⟨100, 480, 150, 240⟩ } := by
  have hm : grp_line_mean (fun a b => Complex.arg ⟨b, a⟩) Real.pi (exampleEnv ℝ)
      [⟨100, 480, 150, 240⟩] = some (1, [⟨100, 480, 150, 240⟩]) := by
    decide
  simp only [grp_line, hm, get_point_intCast]
  decide

/-- Off the two axes through the car, `_err_angle` is the arc tangent of
`|dx| / dy` in degrees, negated when `dx < 0`. -/
theorem err_angle_eq (s : LaneDetectorObject) (p : Point)
    (hx : p.x ≠ s._car_position.x) (hy : p.y ≠ s._car_position.y) :
    _err_angle Real.arctan Real.pi s p =
      (if p.x < s._car_position.x then -1 else 1) *
        (Real.arctan (|((p.x - s._car_position.x : Int) : ℝ)| /
          ((s._car_position.y - p.y : Int) : ℝ)) * 180 / Real.pi) := by
  have hdx : ((p.x - s._car_position.x : Int) : ℝ) < 0 ↔ p.x < s._car_position.x := by
    rw [Int.cast_lt_zero]; omega
  simp only [_err_angle, if_neg hx, if_neg hy]
  by_cases hlt : p.x < s._car_position.x
  · have h1 := hdx.mpr hlt
    rw [if_pos h1, if_pos hlt, abs_of_neg h1]
    ring
  · have h1 : ¬ ((p.x - s._car_position.x : Int) : ℝ) < 0 := fun h => hlt (hdx.mp h)
    rw [if_neg h1, if_neg hlt, abs_of_nonneg (not_lt.mp h1)]
    ring

/-! ## Steering estimator -/

/-- C1: in `get_err_angle` with both lanes present, the target point handed
to `_err_angle` has `y = height/2`; its `x` is the midpoint `mid` of the two
intercepts that the estimator uses when `|mid - pr| < 30`, and `(mid + pr)/2`,
which is not `mid`, when `|mid - pr| >= 30`.  Here `pr` is the intercept of
`previous_lane` at `y = height/2` when that lane is not NIL and `width/2`
otherwise. -/
theorem get_err_angle_dst_both_lanes (s : LaneDetectorObject) (a b : Point) (pr : Int)
    (hl : s._left_lane ≠ NIL_LANE) (hr : s._right_lane ≠ NIL_LANE)
    (ha : get_point s._left_lane (s._height.tdiv 2 : Int) = some a)
    (hb : get_point s._right_lane (s._width.tdiv 2 : Int) = some b)
    (hpr : (s._pre_lane ≠ NIL_LANE ∧
              ∃ q, get_point s._pre_lane (s._height.tdiv 2 : Int) = some q ∧ pr = q.x) ∨
           (s._pre_lane = NIL_LANE ∧ pr = s._width.tdiv 2)) :
    ∃ d, get_err_angle_dst s = some d ∧
      (get_err_angle Real.arctan Real.pi s).1 = some (_err_angle Real.arctan Real.pi s d) ∧
      d.y = s._height.tdiv 2 ∧
      (|(a.x + b.x).tdiv 2 - pr| < 30 → d.x = (a.x + b.x).tdiv 2) ∧
      (30 ≤ |(a.x + b.x).tdiv 2 - pr| →
        d.x = ((a.x + b.x).tdiv 2 + pr).tdiv 2 ∧ d.x ≠ (a.x + b.x).tdiv 2) := by
  have hprv : (if s._pre_lane ≠ NIL_LANE then
      (get_point s._pre_lane (s._height.tdiv 2 : Int)).map (fun q => q.x)
      else some (s._width.tdiv 2)) = some pr := by
    rcases hpr with ⟨h1, q, hq, rfl⟩ | ⟨h1, rfl⟩
    · rw [if_pos h1, hq]; rfl
    · rw [if_neg (not_not.mpr h1)]
  have hne : ∀ m : Int, 30 ≤ |m - pr| → (m + pr).tdiv 2 ≠ m := by
    intro m hm heq
    have hb2 := tdiv_two_bounds (m + pr)
    rw [heq] at hb2
    have : |m - pr| ≤ 1 := abs_le.mpr ⟨by omega, by omega⟩
    omega
  have hmap : ∀ d, get_err_angle_dst s = some d →
      (get_err_angle Real.arctan Real.pi s).1 = some (_err_angle Real.arctan Real.pi s d) := by
    intro d hd
    simp only [get_err_angle, hd, Option.map_some']
  by_cases hlt : |(a.x + b.x).tdiv 2 - pr| < 30
  · have hd : get_err_angle_dst s = some ⟨(a.x + b.x).tdiv 2, s._height.tdiv 2⟩ := by
      simp only [get_err_angle_dst, hprv, ha, hb, if_pos (And.intro hl hr), if_pos hlt]
    exact ⟨_, hd, hmap _ hd, rfl, fun _ => rfl, fun h => by omega⟩
  · have hd : get_err_angle_dst s =
        some ⟨((a.x + b.x).tdiv 2 + pr).tdiv 2, s._height.tdiv 2⟩ := by
      simp only [get_err_angle_dst, hprv, ha, hb, if_pos (And.intro hl hr), if_neg hlt]
    exact ⟨_, hd, hmap _ hd, rfl, fun h => absurd h hlt, fun h => ⟨rfl, hne _ h⟩⟩

/-- C1, witness: in scenario D (`mid = 200`, `pr = 260`) the target point is `(230, 240)`. -/
theorem get_err_angle_dst_both_lanes_witness :
    scenarioD._left_lane ≠ NIL_LANE ∧ scenarioD._right_lane ≠ NIL_LANE ∧
    get_point scenarioD._left_lane (scenarioD._height.tdiv 2 : Int) = some ⟨100, 240⟩ ∧
    get_point scenarioD._right_lane (scenarioD._width.tdiv 2 : Int) = some ⟨300, 200⟩ ∧
    get_point scenarioD._pre_lane (scenarioD._height.tdiv 2 : Int) = some ⟨260, 240⟩ ∧
    get_err_angle_dst scenarioD = some ⟨230, 240⟩ := by
  have h1 : get_point scenarioD._left_lane (scenarioD._height.tdiv 2 : Int) = some ⟨100, 240⟩ := by
    rw [get_point_intCast]; decide
  have h2 : get_point scenarioD._right_lane (scenarioD._width.tdiv 2 : Int) = some ⟨300, 200⟩ := by
    rw [get_point_intCast]; decide
  have h3 : get_point scenarioD._pre_lane (scenarioD._height.tdiv 2 : Int) = some ⟨260, 240⟩ := by
    rw [get_point_intCast]; decide
  obtain ⟨d, hd, -, hy, -, hx⟩ :=
    get_err_angle_dst_both_lanes scenarioD ⟨100, 240⟩ ⟨300, 200⟩ 260 (by decide) (by decide)
      h1 h2 (Or.inl ⟨by decide, ⟨260, 240⟩, h3, rfl⟩)
  refine ⟨by decide, by decide, h1, h2, h3, ?_⟩
  have hx' := (hx (by decide)).1
  rw [hd]
  cases d
  simp only [Option.some.injEq, Point.mk.injEq]
  exact ⟨hx'.trans (by decide), hy.trans (by decide)⟩

/-- C2 (the code departs from the claim): with only the right lane tracked,
`get_err_angle` aims at the intercept of the right lane at row `width/2` minus
`lane_width/2`.  On a 400x480 frame with the right lane `(300,480)-(200,0)` that
row is 200, the intercept is `x = 241` and the target is `x = 241 - 50 = 191`;
the intercept at row `height/2 = 240` is `x = 250`, for which the claim gives
`250 - 50 = 200`. -/
theorem get_err_angle_dst_right_only_row :
    (∀ (s : LaneDetectorObject) (b : Point), s._left_lane = NIL_LANE →
      s._right_lane ≠ NIL_LANE →
      get_point s._right_lane (s._width.tdiv 2 : Int) = some b →
      get_err_angle_dst s = some ⟨b.x - s._lane_width.tdiv 2, s._height.tdiv 2⟩) ∧
    rightOnly._left_lane = NIL_LANE ∧ rightOnly._right_lane ≠ NIL_LANE ∧
    rightOnly._right_lane.y1 ≠ rightOnly._right_lane.y2 ∧
    get_err_angle_dst rightOnly = some ⟨191, 240⟩ ∧
    get_point rightOnly._right_lane (rightOnly._width.tdiv 2 : Int) = some ⟨241, 200⟩ ∧
    get_point rightOnly._right_lane (rightOnly._height.tdiv 2 : Int) = some ⟨250, 240⟩ ∧
    (250 : Int) - rightOnly._lane_width.tdiv 2 = 200 := by
  refine ⟨fun s b hl hr hb => ?_, by decide, by decide, by decide, ?_, ?_, ?_, by decide⟩
  · simp only [get_err_angle_dst, hl, hb, ne_eq, not_true_eq_false, false_and, if_false,
      if_pos hr]
  · simp only [get_err_angle_dst, get_point_intCast]; decide
  · rw [get_point_intCast]; decide
  · rw [get_point_intCast]; decide

/-- C3, counterexample: with both lanes NIL, a 400x480 frame and the car
reference point at `(100, 480)`, `get_err_angle` returns a non-zero angle. -/
theorem get_err_angle_neither_nonzero :
    carOffCentre._left_lane = NIL_LANE ∧ carOffCentre._right_lane = NIL_LANE ∧
    ∃ v : ℝ, (get_err_angle Real.arctan Real.pi carOffCentre).1 = some v ∧ v ≠ 0 := by
  refine ⟨rfl, rfl, Real.arctan ((100 : ℝ) / 240) * 180 / Real.pi, ?_, ?_⟩
  · have hd : get_err_angle_dst carOffCentre = some ⟨200, 240⟩ := by decide
    simp only [get_err_angle, hd, Option.map_some']
    simp only [_err_angle, carOffCentre, freshTracker]
    norm_num
  · have := arctan_pos_of_pos (show (0 : ℝ) < 100 / 240 by norm_num)
    have hpi := Real.pi_pos
    positivity

/-- C3, amended: with both lanes NIL the target point is the frame centre
`(width/2, height/2)`, `get_err_angle` returns `_err_angle` of that point, and
the result is exactly 0 when the car reference point has `x = width/2`. -/
theorem get_err_angle_neither (s : LaneDetectorObject)
    (hl : s._left_lane = NIL_LANE) (hr : s._right_lane = NIL_LANE) :
    get_err_angle_dst s = some ⟨s._width.tdiv 2, s._height.tdiv 2⟩ ∧
    (get_err_angle Real.arctan Real.pi s).1 =
      some (_err_angle Real.arctan Real.pi s ⟨s._width.tdiv 2, s._height.tdiv 2⟩) ∧
    (s._car_position.x = s._width.tdiv 2 →
      (get_err_angle Real.arctan Real.pi s).1 = some 0) := by
  have hd : get_err_angle_dst s = some ⟨s._width.tdiv 2, s._height.tdiv 2⟩ := by
    simp [get_err_angle_dst, hl, hr]
  refine ⟨hd, ?_, fun hc => ?_⟩
  · simp only [get_err_angle, hd, Option.map_some']
  · simp only [get_err_angle, hd, Option.map_some', _err_angle, hc, if_true]

/-- C3, witness: the fresh 400x480 tracker with the car at `(200, 480)` reports 0. -/
theorem get_err_angle_neither_witness :
    freshTracker._left_lane = NIL_LANE ∧ freshTracker._right_lane = NIL_LANE ∧
    freshTracker._car_position.x = freshTracker._width.tdiv 2 ∧
    (get_err_angle Real.arctan Real.pi freshTracker).1 = some 0 :=
  ⟨rfl, rfl, by decide, (get_err_angle_neither freshTracker rfl rfl).2.2 (by decide)⟩

/-- C4, counterexample: a frame whose single segment becomes the left lane,
followed by `get_err_angle`, leaves `previous_lane` at NIL, not at the left lane. -/
theorem pre_lane_not_updated :
    ∃ s1, grp_line (fun a b => Complex.arg ⟨b, a⟩) Real.pi (exampleEnv ℝ) freshTracker
        [⟨100, 480, 150, 240⟩] = some s1 ∧
      s1._left_lane ≠ NIL_LANE ∧
      (get_err_angle Real.arctan Real.pi s1).2._pre_lane = NIL_LANE ∧
      (get_err_angle Real.arctan Real.pi s1).2._pre_lane ≠ s1._left_lane := by
  refine ⟨_, grp_line_one_segment, by decide, ?_, ?_⟩
  · simp only [get_err_angle]
    decide
  · simp only [get_err_angle]
    decide

/-- C4, amended: `get_err_angle` leaves the tracker state as it is, and
`previous_lane` after a processed frame (`grp_line`) and the call of
`get_err_angle` is the `previous_lane` from before the frame. -/
theorem get_err_angle_keeps_state {α : Type} [LinearOrderedField α]
    (atan2 : α → α → α) (atan : α → α) (pi : α) (env : GrpEnv α)
    (s s1 : LaneDetectorObject) (lines : List Vec4i)
    (h : grp_line atan2 pi env s lines = some s1) :
    (get_err_angle atan pi s1).2 = s1 ∧
    (get_err_angle atan pi s1).2._pre_lane = s._pre_lane := by
  refine ⟨rfl, ?_⟩
  show s1._pre_lane = s._pre_lane
  exact grp_line_keeps_pre_lane atan2 pi env s s1 _ h

/-- C4, witness: the one-segment frame on the fresh tracker. -/
theorem get_err_angle_keeps_state_witness :
    grp_line (fun a b => Complex.arg ⟨b, a⟩) Real.pi (exampleEnv ℝ) freshTracker
        [⟨100, 480, 150, 240⟩] = some { freshTracker with _left_lane := ⟨100, 480, 150, 240⟩ } ∧
    (get_err_angle Real.arctan Real.pi
        { freshTracker with _left_lane := ⟨100, 480, 150, 240⟩ }).2._pre_lane =
      freshTracker._pre_lane :=
  ⟨grp_line_one_segment,
    (get_err_angle_keeps_state (fun a b => Complex.arg ⟨b, a⟩) Real.arctan Real.pi (exampleEnv ℝ)
      freshTracker _ _ grp_line_one_segment).2⟩

/-- C5, counterexample: with the car at `(200, 100)` the target `(100, 240)` is
left of the car and below it, and `_err_angle` is positive. -/
theorem err_angle_left_below_positive :
    (⟨100, 240⟩ : Point).x < carAbove._car_position.x ∧
    carAbove._car_position.y < (⟨100, 240⟩ : Point).y ∧
    0 < _err_angle Real.arctan Real.pi carAbove ⟨100, 240⟩ := by
  refine ⟨by decide, by decide, ?_⟩
  simp only [_err_angle, carAbove, freshTracker]
  norm_num
  have := arctan_pos_of_pos (show (0 : ℝ) < 5 / 7 by norm_num)
  have hpi := Real.pi_pos
  positivity

/-- C5, amended: for `p.x != c.x` and `p.y != c.y`, `_err_angle(p)` equals
`atan(|dx|/dy)*180/pi` in magnitude; when the target lies above the car
(`dy > 0`) it is negative for `p.x < c.x` and positive for `p.x > c.x`, and
when the target lies below the car (`dy < 0`) the two signs are exchanged. -/
theorem err_angle_sign (s : LaneDetectorObject) (p : Point)
    (hx : p.x ≠ s._car_position.x) (hy : p.y ≠ s._car_position.y) :
    |_err_angle Real.arctan Real.pi s p| =
      |Real.arctan (|((p.x - s._car_position.x : Int) : ℝ)| /
          ((s._car_position.y - p.y : Int) : ℝ)) * 180 / Real.pi| ∧
    (p.y < s._car_position.y →
      (p.x < s._car_position.x → _err_angle Real.arctan Real.pi s p < 0) ∧
      (s._car_position.x < p.x → 0 < _err_angle Real.arctan Real.pi s p)) ∧
    (s._car_position.y < p.y →
      (p.x < s._car_position.x → 0 < _err_angle Real.arctan Real.pi s p) ∧
      (s._car_position.x < p.x → _err_angle Real.arctan Real.pi s p < 0)) := by
  have heq := err_angle_eq s p hx hy
  have hpi := Real.pi_pos
  have hdx : (0 : ℝ) < |((p.x - s._car_position.x : Int) : ℝ)| := by
    rw [abs_pos, Int.cast_ne_zero]; omega
  have hup : p.y < s._car_position.y →
      0 < Real.arctan (|((p.x - s._car_position.x : Int) : ℝ)| /
          ((s._car_position.y - p.y : Int) : ℝ)) * 180 / Real.pi := by
    intro h
    have hdy : (0 : ℝ) < ((s._car_position.y - p.y : Int) : ℝ) := by
      rw [Int.cast_pos]; omega
    have := arctan_pos_of_pos (div_pos hdx hdy)
    positivity
  have hdown : s._car_position.y < p.y →
      Real.arctan (|((p.x - s._car_position.x : Int) : ℝ)| /
          ((s._car_position.y - p.y : Int) : ℝ)) * 180 / Real.pi < 0 := by
    intro h
    have hdy : ((s._car_position.y - p.y : Int) : ℝ) < 0 := by
      rw [Int.cast_lt_zero]; omega
    have h1 : 0 < Real.arctan (|((p.x - s._car_position.x : Int) : ℝ)| /
          (-((s._car_position.y - p.y : Int) : ℝ))) :=
      arctan_pos_of_pos (div_pos hdx (neg_pos.mpr hdy))
    rw [div_neg, Real.arctan_neg] at h1
    have h2 : Real.arctan (|((p.x - s._car_position.x : Int) : ℝ)| /
          ((s._car_position.y - p.y : Int) : ℝ)) < 0 := by linarith
    have h3 : (0 : ℝ) < 180 / Real.pi := by positivity
    rw [mul_div_assoc]
    exact mul_neg_of_neg_of_pos h2 h3
  refine ⟨?_, fun h => ⟨fun hl => ?_, fun hr => ?_⟩, fun h => ⟨fun hl => ?_, fun hr => ?_⟩⟩
  · rw [heq]
    split <;> simp
  · rw [heq, if_pos hl]; linarith [hup h]
  · rw [heq, if_neg (by omega)]; linarith [hup h]
  · rw [heq, if_pos hl]; linarith [hdown h]
  · rw [heq, if_neg (by omega)]; linarith [hdown h]

/-- C5, witness: with the car at `(200, 480)` the target `(100, 240)`, left of
the car and above it, gets a negative angle. -/
theorem err_angle_sign_witness :
    (⟨100, 240⟩ : Point).x ≠ freshTracker._car_position.x ∧
    (⟨100, 240⟩ : Point).y ≠ freshTracker._car_position.y ∧
    _err_angle Real.arctan Real.pi freshTracker ⟨100, 240⟩ < 0 :=
  ⟨by decide, by decide,
    ((err_angle_sign freshTracker ⟨100, 240⟩ (by decide) (by decide)).2.1 (by decide)).1
      (by decide)⟩

/-- C6: `_err_angle(p)` is exactly 0 when `p.x == c.x`, exactly -90 when
`p.y == c.y` and `p.x < c.x`, and exactly +90 when `p.y == c.y` and `p.x > c.x`. -/
theorem err_angle_axes {α : Type} [LinearOrderedField α] (atan : α → α) (pi : α)
    (s : LaneDetectorObject) (p : Point) :
    (p.x = s._car_position.x → _err_angle atan pi s p = 0) ∧
    (p.y = s._car_position.y → p.x < s._car_position.x → _err_angle atan pi s p = -90) ∧
    (p.y = s._car_position.y → s._car_position.x < p.x → _err_angle atan pi s p = 90) := by
  refine ⟨fun h => ?_, fun hy hx => ?_, fun hy hx => ?_⟩
  · simp [_err_angle, h]
  · simp [_err_angle, hy, hx, ne_of_lt hx]
  · simp [_err_angle, hy, ne_of_gt hx, not_lt.mpr (le_of_lt hx)]

/-- C6, witness: with the car at `(200, 480)`, the points `(200, 240)`,
`(100, 480)` and `(300, 480)` give 0, -90 and 90. -/
theorem err_angle_axes_witness :
    _err_angle Real.arctan Real.pi freshTracker ⟨200, 240⟩ = 0 ∧
    _err_angle Real.arctan Real.pi freshTracker ⟨100, 480⟩ = -90 ∧
    _err_angle Real.arctan Real.pi freshTracker ⟨300, 480⟩ = 90 :=
  ⟨(err_angle_axes Real.arctan Real.pi freshTracker ⟨200, 240⟩).1 (by decide),
    (err_angle_axes Real.arctan Real.pi freshTracker ⟨100, 480⟩).2.1 (by decide) (by decide),
    (err_angle_axes Real.arctan Real.pi freshTracker ⟨300, 480⟩).2.2 (by decide) (by decide)⟩

/-! ## Segment filter -/

/-- C7 (the code departs from the claim): for the weight 10 of `update`, every
segment whose radicand in `euclide_dist` is negative is dropped, whatever its
angle and position.  The segment `(100,400)-(200,300)` has `|angle| >= 15` and
both endpoints below the sky line 100, its radicand is `-140000`, and the
filter keeps no copy of it. -/
theorem fit_lane_2_line_drops_long_segment :
    (∀ (s : LaneDetectorObject) (l : Vec4i), euclide_radicand l < 0 →
      fit_lane_2_line Real.sqrt (fun a b => Complex.arg ⟨b, a⟩) Real.pi s [l] 10 = []) ∧
    15 ≤ |angle (fun a b => Complex.arg ⟨b, a⟩) Real.pi ⟨100, 400, 200, 300⟩| ∧
    freshTracker._sky_line ≤ (⟨100, 400, 200, 300⟩ : Vec4i).y1 ∧
    freshTracker._sky_line ≤ (⟨100, 400, 200, 300⟩ : Vec4i).y2 ∧
    euclide_radicand ⟨100, 400, 200, 300⟩ = -140000 ∧
    fit_lane_2_line Real.sqrt (fun a b => Complex.arg ⟨b, a⟩) Real.pi freshTracker
      [⟨100, 400, 200, 300⟩] 10 = [] := by
  refine ⟨fun s l h => fit_lane_2_line_nan s l h, ?_, by decide, by decide, by decide,
    fit_lane_2_line_nan _ _ (by decide)⟩
  have := angle_gt_of_y2_lt_y1 ⟨100, 400, 200, 300⟩ (by decide)
  linarith

/-- C8 (the code departs from the claim): for the weight 10 the segment
`(30,40)-(0,0)` of Euclidean length 50 is copied once, not `ceil(50/10) + 0 = 5`
times, and the segment `(100,400)-(160,320)` of Euclidean length 100, which
reaches the bottom third of a frame of height 480, is copied 0 times, not
`ceil(100/10) + 10 = 20` times. -/
theorem fit_lane_2_line_copies_differ :
    (15 ≤ |angle (fun a b => Complex.arg ⟨b, a⟩) Real.pi ⟨30, 40, 0, 0⟩| ∧
      openSky._sky_line ≤ (⟨30, 40, 0, 0⟩ : Vec4i).y1 ∧
      openSky._sky_line ≤ (⟨30, 40, 0, 0⟩ : Vec4i).y2 ∧
      (fit_lane_2_line Real.sqrt (fun a b => Complex.arg ⟨b, a⟩) Real.pi openSky
        [⟨30, 40, 0, 0⟩] 10).count ⟨30, 40, 0, 0⟩ = 1 ∧
      ⌈Real.sqrt ((((30 - 0) ^ 2 + (40 - 0) ^ 2 : Int) : ℝ)) / 10⌉ + 0 = 5) ∧
    (15 ≤ |angle (fun a b => Complex.arg ⟨b, a⟩) Real.pi ⟨100, 400, 160, 320⟩| ∧
      freshTracker._sky_line ≤ (⟨100, 400, 160, 320⟩ : Vec4i).y1 ∧
      freshTracker._sky_line ≤ (⟨100, 400, 160, 320⟩ : Vec4i).y2 ∧
      freshTracker._height.tdiv 3 * 2 < (⟨100, 400, 160, 320⟩ : Vec4i).y1 ∧
      (fit_lane_2_line Real.sqrt (fun a b => Complex.arg ⟨b, a⟩) Real.pi freshTracker
        [⟨100, 400, 160, 320⟩] 10).count ⟨100, 400, 160, 320⟩ = 0 ∧
      ⌈Real.sqrt ((((100 - 160) ^ 2 + (400 - 320) ^ 2 : Int) : ℝ)) / 10⌉ + 10 = 20) := by
  have hs1 : Real.sqrt ((((30 - 0) ^ 2 + (40 - 0) ^ 2 : Int) : ℝ)) = 50 := by
    rw [show ((((30 - 0) ^ 2 + (40 - 0) ^ 2 : Int) : ℝ)) = 50 ^ 2 by norm_num]
    exact Real.sqrt_sq (by norm_num)
  have hs2 : Real.sqrt ((((100 - 160) ^ 2 + (400 - 320) ^ 2 : Int) : ℝ)) = 100 := by
    rw [show ((((100 - 160) ^ 2 + (400 - 320) ^ 2 : Int) : ℝ)) = 100 ^ 2 by norm_num]
    exact Real.sqrt_sq (by norm_num)
  refine ⟨⟨?_, by decide, by decide, ?_, ?_⟩, ⟨?_, by decide, by decide, by decide, ?_, ?_⟩⟩
  · have := angle_gt_of_y2_lt_y1 ⟨30, 40, 0, 0⟩ (by decide)
    linarith
  · rw [fit_lane_2_line_short_length]
    decide
  · rw [hs1]
    norm_num
  · have := angle_gt_of_y2_lt_y1 ⟨100, 400, 160, 320⟩ (by decide)
    linarith
  · rw [fit_lane_2_line_nan _ _ (by decide)]
    rfl
  · rw [hs2]
    norm_num

/-! ## Lane selector -/

/-- C9, counterexample: with both lanes tracked from the previous frame,
`grp_line` on an empty segment list leaves both lanes as they were, not NIL. -/
theorem grp_line_empty_stale_lanes :
    grp_line (fun a b => Complex.arg ⟨b, a⟩) Real.pi (exampleEnv ℝ) staleLanes [] =
      some staleLanes ∧
    staleLanes._left_lane ≠ NIL_LANE ∧ staleLanes._right_lane ≠ NIL_LANE := by
  refine ⟨?_, by decide, by decide⟩
  simp [grp_line]

/-- C9, amended: for every prior tracker state, `grp_line` on an empty segment
list returns at once and leaves the object untouched: `left_lane` and
`right_lane` keep their prior values, so both are NIL afterwards exactly when
both were NIL before. -/
theorem grp_line_empty_keeps_lanes {α : Type} [LinearOrderedField α]
    (atan2 : α → α → α) (pi : α) (env : GrpEnv α) (s : LaneDetectorObject) :
    grp_line atan2 pi env s [] = some s ∧
    ∀ s1, grp_line atan2 pi env s [] = some s1 →
      s1._left_lane = s._left_lane ∧ s1._right_lane = s._right_lane ∧
      ((s1._left_lane = NIL_LANE ∧ s1._right_lane = NIL_LANE) ↔
        (s._left_lane = NIL_LANE ∧ s._right_lane = NIL_LANE)) := by
  have h : grp_line atan2 pi env s [] = some s := by simp [grp_line]
  refine ⟨h, fun s1 h1 => ?_⟩
  rw [h] at h1
  cases h1
  exact ⟨rfl, rfl, Iff.rfl⟩

/-- C9, witness: on the fresh tracker an empty segment list leaves both lanes
NIL (scenario A of the specification). -/
theorem grp_line_empty_keeps_lanes_witness :
    grp_line (fun a b => Complex.arg ⟨b, a⟩) Real.pi (exampleEnv ℝ) freshTracker [] =
      some freshTracker ∧
    freshTracker._left_lane = NIL_LANE ∧ freshTracker._right_lane = NIL_LANE :=
  ⟨(grp_line_empty_keeps_lanes (fun a b => Complex.arg ⟨b, a⟩) Real.pi (exampleEnv ℝ)
      freshTracker).1, rfl, rfl⟩

/-- C10: when the input of `grp_line` forms two or more classes and `A`, `B`
are the candidates `mean[0]`, `mean[1]`: if `|angle(A)| > 15` and
`|angle(B)| > 15`, the left lane is the candidate with the smaller intercept at
the bottom row `y = height` and the right lane is the other one, so that the
left lane's bottom-row `x` is at most the right lane's; if the angle check
fails for either candidate, both lanes are NIL. -/
theorem grp_line_two_clusters {α : Type} [LinearOrderedField α]
    (atan2 : α → α → α) (pi : α) (env : GrpEnv α) (s : LaneDetectorObject)
    (lines : List Vec4i) (count : Nat) (mean : List Vec4i) (A B : Vec4i)
    (hne : lines.length ≠ 0)
    (hmean : grp_line_mean atan2 pi env lines = some (count, mean))
    (hcount : 2 ≤ count)
    (hA : mean.get? 0 = some A) (hB : mean.get? 1 = some B) :
    (15 < |angle atan2 pi A| ∧ 15 < |angle atan2 pi B| →
      ∀ a b, get_point A (s._height : Int) = some a → get_point B (s._height : Int) = some b →
        ∃ s1 l r, grp_line atan2 pi env s lines = some s1 ∧
          get_point s1._left_lane (s._height : Int) = some l ∧
          get_point s1._right_lane (s._height : Int) = some r ∧
          l.x ≤ r.x ∧
          (a.x < b.x → s1._left_lane = A ∧ s1._right_lane = B) ∧
          (b.x ≤ a.x → s1._left_lane = B ∧ s1._right_lane = A)) ∧
    (¬ (15 < |angle atan2 pi A| ∧ 15 < |angle atan2 pi B|) →
      ∃ s1, grp_line atan2 pi env s lines = some s1 ∧
        s1._left_lane = NIL_LANE ∧ s1._right_lane = NIL_LANE) := by
  have hge : count ≥ 2 := hcount
  constructor
  · intro hang a b ha hb
    by_cases hlt : a.x < b.x
    · refine ⟨{ s with _left_lane := A, _right_lane := B }, a, b, ?_, ha, hb, le_of_lt hlt,
        fun _ => ⟨rfl, rfl⟩, fun h => absurd hlt (not_lt.mpr h)⟩
      simp only [grp_line, if_neg hne, hmean, if_pos hge, hA, hB, if_pos hang, ha, hb, if_pos hlt]
    · refine ⟨{ s with _left_lane := B, _right_lane := A }, b, a, ?_, hb, ha, not_lt.mp hlt,
        fun h => absurd h hlt, fun _ => ⟨rfl, rfl⟩⟩
      simp only [grp_line, if_neg hne, hmean, if_pos hge, hA, hB, if_pos hang, ha, hb, if_neg hlt]
  · intro hang
    refine ⟨{ s with _left_lane := NIL_LANE, _right_lane := NIL_LANE }, ?_, rfl, rfl⟩
    simp only [grp_line, if_neg hne, hmean, if_pos hge, hA, hB, if_neg hang]

/-- C10, witness: two segments in two classes, the one with the larger
bottom-row intercept listed first; the lane selector makes the second one the
left lane and the first one the right lane. -/
theorem grp_line_two_clusters_witness :
    grp_line_mean (fun a b => Complex.arg ⟨b, a⟩) Real.pi (exampleEnv ℝ)
        [⟨300, 480, 250, 240⟩, ⟨100, 480, 150, 240⟩] =
      some (2, [⟨300, 480, 250, 240⟩, ⟨100, 480, 150, 240⟩]) ∧
    ∃ s1, grp_line (fun a b => Complex.arg ⟨b, a⟩) Real.pi (exampleEnv ℝ) freshTracker
        [⟨300, 480, 250, 240⟩, ⟨100, 480, 150, 240⟩] = some s1 ∧
      s1._left_lane = ⟨100, 480, 150, 240⟩ ∧ s1._right_lane = ⟨300, 480, 250, 240⟩ := by
  have hm : grp_line_mean (fun a b => Complex.arg ⟨b, a⟩) Real.pi (exampleEnv ℝ)
      [⟨300, 480, 250, 240⟩, ⟨100, 480, 150, 240⟩] =
      some (2, [⟨300, 480, 250, 240⟩, ⟨100, 480, 150, 240⟩]) := by
    decide
  have hA := angle_gt_of_y2_lt_y1 ⟨300, 480, 250, 240⟩ (by decide)
  have hB := angle_gt_of_y2_lt_y1 ⟨100, 480, 150, 240⟩ (by decide)
  obtain ⟨s1, l, r, hs, -, -, -, -, hswap⟩ :=
    (grp_line_two_clusters (fun a b => Complex.arg ⟨b, a⟩) Real.pi (exampleEnv ℝ) freshTracker
      [⟨300, 480, 250, 240⟩, ⟨100, 480, 150, 240⟩] 2
      [⟨300, 480, 250, 240⟩, ⟨100, 480, 150, 240⟩] ⟨300, 480, 250, 240⟩ ⟨100, 480, 150, 240⟩
      (by decide) hm (by decide) rfl rfl).1
      ⟨by linarith, by linarith⟩ ⟨300, 480⟩ ⟨100, 480⟩
      (by rw [get_point_intCast]; decide) (by rw [get_point_intCast]; decide)
  exact ⟨hm, s1, hs, hswap (by decide)⟩

/-! ## Left lane only, interpolation, clustering predicate, bound -/

/-- C12: in `get_err_angle` with a non-NIL, non-horizontal left lane and a NIL
right lane, the target point has `y = height/2` and `x = p1 + lane_width/2`,
where `p1` is the intercept of the left lane at `y = height/2`, and the
returned angle is `_err_angle` of that point. -/
theorem get_err_angle_dst_left_only (s : LaneDetectorObject)
    (hl : s._left_lane ≠ NIL_LANE) (hy : s._left_lane.y1 ≠ s._left_lane.y2)
    (hr : s._right_lane = NIL_LANE) :
    ∃ p1, get_point s._left_lane (s._height.tdiv 2 : Int) = some p1 ∧
      get_err_angle_dst s = some ⟨p1.x + s._lane_width.tdiv 2, s._height.tdiv 2⟩ ∧
      (get_err_angle Real.arctan Real.pi s).1 =
        some (_err_angle Real.arctan Real.pi s ⟨p1.x + s._lane_width.tdiv 2, s._height.tdiv 2⟩) := by
  have hne : ¬ s._left_lane.y1 - s._left_lane.y2 = 0 := by omega
  obtain ⟨p1, hp1⟩ : ∃ p1, get_point s._left_lane (s._height.tdiv 2 : Int) = some p1 := by
    rw [get_point_intCast, if_neg hne]
    exact ⟨_, rfl⟩
  have hd : get_err_angle_dst s = some ⟨p1.x + s._lane_width.tdiv 2, s._height.tdiv 2⟩ := by
    simp only [get_err_angle_dst, hr, hp1, ne_eq, not_true_eq_false, and_false, if_false,
      if_pos hl]
  refine ⟨p1, hp1, hd, ?_⟩
  simp only [get_err_angle, hd, Option.map_some']

/-- C12, witness: the left lane `(100,480)-(150,240)` on the 400x480 frame has
the intercept 150 at row 240, and the target point is `(200, 240)`. -/
theorem get_err_angle_dst_left_only_witness :
    leftOnly._left_lane ≠ NIL_LANE ∧ leftOnly._left_lane.y1 ≠ leftOnly._left_lane.y2 ∧
    leftOnly._right_lane = NIL_LANE ∧
    get_point leftOnly._left_lane (leftOnly._height.tdiv 2 : Int) = some ⟨150, 240⟩ ∧
    get_err_angle_dst leftOnly = some ⟨200, 240⟩ := by
  obtain ⟨p1, hp1, hd, -⟩ :=
    get_err_angle_dst_left_only leftOnly (by decide) (by decide) (by decide)
  have h1 : get_point leftOnly._left_lane (leftOnly._height.tdiv 2 : Int) = some ⟨150, 240⟩ := by
    rw [get_point_intCast]; decide
  refine ⟨by decide, by decide, by decide, h1, ?_⟩
  rw [h1] at hp1
  cases hp1
  rw [hd]
  decide

/-- C16: for a segment with `y1 != y2`, `get_point` returns
`x = (y - y1)*(x1 - x2)/(y1 - y2) + x1` truncated to an integer; for an integer
row `y` the point carries the given `y`, and the intercepts at the rows of the
two endpoints are `x1` and `x2`. -/
theorem get_point_interpolation (l : Vec4i) (h : l.y1 ≠ l.y2) :
    (∀ y : ℚ, get_point l y =
      some ⟨truncToInt ((y - l.y1) * (l.x1 - l.x2) / (l.y1 - l.y2) + l.x1), truncToInt y⟩) ∧
    (∀ y : Int, ∃ p, get_point l (y : ℚ) = some p ∧ p.y = y ∧
      p.x = truncToInt (((y : ℚ) - l.y1) * (l.x1 - l.x2) / (l.y1 - l.y2) + l.x1)) ∧
    get_point l (l.y1 : ℚ) = some ⟨l.x1, l.y1⟩ ∧
    get_point l (l.y2 : ℚ) = some ⟨l.x2, l.y2⟩ := by
  have hne : ¬ l.y1 - l.y2 = 0 := by omega
  have hne' : l.y1 - l.y2 ≠ 0 := hne
  refine ⟨fun y => ?_, fun y => ?_, ?_, ?_⟩
  · simp only [get_point, if_neg hne]
  · refine ⟨⟨truncToInt (((y : ℚ) - l.y1) * (l.x1 - l.x2) / (l.y1 - l.y2) + l.x1), y⟩,
      ?_, rfl, rfl⟩
    simp only [get_point, if_neg hne, truncToInt_intCast]
  · rw [get_point_intCast, if_neg hne]
    have : (l.y1 - l.y1) * (l.x1 - l.x2) + l.x1 * (l.y1 - l.y2) = l.x1 * (l.y1 - l.y2) := by ring
    rw [this, Int.mul_tdiv_cancel _ hne']
  · rw [get_point_intCast, if_neg hne]
    have : (l.y2 - l.y1) * (l.x1 - l.x2) + l.x1 * (l.y1 - l.y2) = l.x2 * (l.y1 - l.y2) := by ring
    rw [this, Int.mul_tdiv_cancel _ hne']

/-- C16, witness: the segment `(300,480)-(200,0)` has the intercepts 300, 200
and, at row 200, `241` (from `241.67`). -/
theorem get_point_interpolation_witness :
    (⟨300, 480, 200, 0⟩ : Vec4i).y1 ≠ (⟨300, 480, 200, 0⟩ : Vec4i).y2 ∧
    get_point ⟨300, 480, 200, 0⟩ ((480 : Int) : ℚ) = some ⟨300, 480⟩ ∧
    get_point ⟨300, 480, 200, 0⟩ ((0 : Int) : ℚ) = some ⟨200, 0⟩ ∧
    get_point ⟨300, 480, 200, 0⟩ ((200 : Int) : ℚ) = some ⟨241, 200⟩ :=
  ⟨by decide, (get_point_interpolation ⟨300, 480, 200, 0⟩ (by decide)).2.2.1,
    (get_point_interpolation ⟨300, 480, 200, 0⟩ (by decide)).2.2.2,
    by rw [get_point_intCast]; decide⟩

/-- C17: `DistanceCalc(a, b)` is true exactly when
`|angle(a) - angle(b)| < DISTANCE_CALC_BIN_THRESHOLD`; it is symmetric, and for a
positive threshold it is reflexive. -/
theorem DistanceCalc_symm_refl {α : Type} [LinearOrderedField α] (atan2 : α → α → α) (pi : α)
    (threshold : α) (hthr : 0 < threshold) (a b : Vec4i) :
    (DistanceCalc atan2 pi threshold a b = true ↔
      |angle atan2 pi a - angle atan2 pi b| < threshold) ∧
    DistanceCalc atan2 pi threshold a b = DistanceCalc atan2 pi threshold b a ∧
    DistanceCalc atan2 pi threshold a a = true := by
  refine ⟨by simp [DistanceCalc], ?_, ?_⟩
  · simp only [DistanceCalc, abs_sub_comm (angle atan2 pi a) (angle atan2 pi b)]
  · simp [DistanceCalc, hthr]

/-- C17, witness: the threshold 10 and two segments, over the reals. -/
theorem DistanceCalc_symm_refl_witness :
    (0 : ℝ) < 10 ∧
    DistanceCalc (fun a b => Complex.arg ⟨b, a⟩) Real.pi 10 ⟨100, 480, 150, 240⟩
        ⟨300, 480, 250, 240⟩ =
      DistanceCalc (fun a b => Complex.arg ⟨b, a⟩) Real.pi 10 ⟨300, 480, 250, 240⟩
        ⟨100, 480, 150, 240⟩ ∧
    DistanceCalc (fun a b => Complex.arg ⟨b, a⟩) Real.pi 10 ⟨100, 480, 150, 240⟩
        ⟨100, 480, 150, 240⟩ = true :=
  ⟨by norm_num,
    (DistanceCalc_symm_refl (fun a b => Complex.arg ⟨b, a⟩) Real.pi 10 (by norm_num)
      ⟨100, 480, 150, 240⟩ ⟨300, 480, 250, 240⟩).2.1,
    (DistanceCalc_symm_refl (fun a b => Complex.arg ⟨b, a⟩) Real.pi 10 (by norm_num)
      ⟨100, 480, 150, 240⟩ ⟨300, 480, 250, 240⟩).2.2⟩

/-- The arc tangent in degrees lies strictly between -90 and 90. -/
theorem arctan_deg_bounds (x : ℝ) :
    -90 < Real.arctan x * 180 / Real.pi ∧ Real.arctan x * 180 / Real.pi < 90 := by
  have hpi := Real.pi_pos
  have h1 := Real.arctan_lt_pi_div_two x
  have h2 := Real.neg_pi_div_two_lt_arctan x
  constructor
  · rw [lt_div_iff₀ hpi]; nlinarith
  · rw [div_lt_iff₀ hpi]; nlinarith

/-- C18: the value of `_err_angle(p)` lies in the closed interval from -90 to
90 degrees for every target point and every car reference point, and so does
every value that `get_err_angle` returns. -/
theorem err_angle_bounded (s : LaneDetectorObject) :
    (∀ p : Point, -90 ≤ _err_angle Real.arctan Real.pi s p ∧
      _err_angle Real.arctan Real.pi s p ≤ 90) ∧
    (∀ v : ℝ, (get_err_angle Real.arctan Real.pi s).1 = some v → -90 ≤ v ∧ v ≤ 90) := by
  have hp : ∀ p : Point, -90 ≤ _err_angle Real.arctan Real.pi s p ∧
      _err_angle Real.arctan Real.pi s p ≤ 90 := by
    intro p
    unfold _err_angle
    split
    · constructor <;> norm_num
    · split
      · split <;> constructor <;> norm_num
      · simp only
        split
        · have hb := arctan_deg_bounds
            (-((p.x - s._car_position.x : Int) : ℝ) / ((s._car_position.y - p.y : Int) : ℝ))
          have heq : (-(Real.arctan (-((p.x - s._car_position.x : Int) : ℝ) /
                ((s._car_position.y - p.y : Int) : ℝ)))) * 180 / Real.pi =
              -(Real.arctan (-((p.x - s._car_position.x : Int) : ℝ) /
                ((s._car_position.y - p.y : Int) : ℝ)) * 180 / Real.pi) := by ring
          rw [heq]
          constructor <;> linarith [hb.1, hb.2]
        · have hb := arctan_deg_bounds
            (((p.x - s._car_position.x : Int) : ℝ) / ((s._car_position.y - p.y : Int) : ℝ))
          constructor <;> linarith [hb.1, hb.2]
  refine ⟨hp, fun v hv => ?_⟩
  simp only [get_err_angle, Option.map_eq_some'] at hv
  obtain ⟨d, -, rfl⟩ := hv
  exact hp d

/-- C18, witness: in scenario D `get_err_angle` returns a value, and it lies
between -90 and 90. -/
theorem err_angle_bounded_witness :
    ∃ v : ℝ, (get_err_angle Real.arctan Real.pi scenarioD).1 = some v ∧ -90 ≤ v ∧ v ≤ 90 := by
  have hd : get_err_angle_dst scenarioD = some ⟨230, 240⟩ := by
    simp only [get_err_angle_dst, get_point_intCast]; decide
  have hv : (get_err_angle Real.arctan Real.pi scenarioD).1 =
      some (_err_angle Real.arctan Real.pi scenarioD ⟨230, 240⟩) := by
    simp only [get_err_angle, hd, Option.map_some']
  exact ⟨_, hv, (err_angle_bounded scenarioD).2 _ hv⟩

/-! ## Orientation of the angle test -/

/-- Negating a non-zero complex number turns `|arg|` into `π - |arg|`. -/
theorem abs_arg_neg_eq (z : ℂ) (hz : z ≠ 0) : |(-z).arg| = Real.pi - |z.arg| := by
  have hpi := Real.pi_pos
  rcases lt_trichotomy z.im 0 with him | him | him
  · have h1 := Complex.arg_neg_eq_arg_add_pi_of_im_neg him
    have h2 : z.arg < 0 := Complex.arg_neg_iff.mpr him
    have h3 := Complex.neg_pi_lt_arg z
    rw [h1, abs_of_neg h2, abs_of_pos (by linarith)]
    ring
  · have hre : z.re ≠ 0 := by
      intro hre
      exact hz (Complex.ext hre him)
    rcases lt_or_gt_of_ne hre with hneg | hpos
    · have h1 : z.arg = Real.pi := Complex.arg_eq_pi_iff.mpr ⟨hneg, him⟩
      have h2 : (-z).arg = 0 := by
        rw [Complex.arg_eq_zero_iff]
        simp only [Complex.neg_re, Complex.neg_im, him, neg_zero, and_true]
        linarith
      rw [h1, h2, abs_of_pos hpi]
      simp
    · have h1 : z.arg = 0 := Complex.arg_eq_zero_iff.mpr ⟨le_of_lt hpos, him⟩
      have h2 : (-z).arg = Real.pi := by
        rw [Complex.arg_eq_pi_iff]
        simp only [Complex.neg_re, Complex.neg_im, him, neg_zero, and_true]
        linarith
      rw [h1, h2, abs_of_pos hpi]
      simp
  · have h1 := Complex.arg_neg_eq_arg_sub_pi_of_im_pos him
    have h2 : 0 ≤ z.arg := Complex.arg_nonneg_iff.mpr (le_of_lt him)
    have h3 := Complex.arg_le_pi z
    rw [h1, abs_of_nonneg h2, abs_of_nonpos (by linarith)]
    ring

/-- Swapping the endpoints of a segment with distinct endpoints turns `|angle|`
into `180 - |angle|`. -/
theorem abs_angle_swap (l : Vec4i) (hne : l.x1 ≠ l.x2 ∨ l.y1 ≠ l.y2) :
    |angle (fun a b => Complex.arg ⟨b, a⟩) Real.pi l.swap| =
      180 - |angle (fun a b => Complex.arg ⟨b, a⟩) Real.pi l| := by
  have hpi := Real.pi_pos
  have hz : (⟨((l.y2 - l.y1 : Int) : ℝ), ((l.x2 - l.x1 : Int) : ℝ)⟩ : ℂ) ≠ 0 := by
    intro h
    have hre := congrArg Complex.re h
    have him := congrArg Complex.im h
    simp only [Complex.zero_re, Complex.zero_im, Int.cast_eq_zero] at hre him
    omega
  have hneg : (⟨((l.y1 - l.y2 : Int) : ℝ), ((l.x1 - l.x2 : Int) : ℝ)⟩ : ℂ) =
      -(⟨((l.y2 - l.y1 : Int) : ℝ), ((l.x2 - l.x1 : Int) : ℝ)⟩ : ℂ) := by
    apply Complex.ext <;> simp
  have h := abs_arg_neg_eq _ hz
  simp only [angle, Vec4i.swap]
  rw [hneg, abs_div, abs_mul, abs_div, abs_mul, h, abs_of_pos hpi,
    abs_of_pos (show (0 : ℝ) < 180 by norm_num)]
  field_simp
  ring

/-- A horizontal segment of positive length has `|angle| = 90`. -/
theorem abs_angle_horizontal (l : Vec4i) (hy : l.y1 = l.y2) (hx : l.x1 ≠ l.x2) :
    |angle (fun a b => Complex.arg ⟨b, a⟩) Real.pi l| = 90 := by
  have hpi := Real.pi_pos
  have hre : ((l.y2 - l.y1 : Int) : ℝ) = 0 := by
    rw [Int.cast_eq_zero]; omega
  have harg : |(⟨((l.y2 - l.y1 : Int) : ℝ), ((l.x2 - l.x1 : Int) : ℝ)⟩ : ℂ).arg| =
      Real.pi / 2 := by
    rcases lt_or_gt_of_ne hx with h | h
    · have him : (0 : ℝ) < ((l.x2 - l.x1 : Int) : ℝ) := by
        rw [Int.cast_pos]; omega
      rw [Complex.arg_eq_pi_div_two_iff.mpr ⟨hre, him⟩, abs_of_pos (by positivity)]
    · have him : ((l.x2 - l.x1 : Int) : ℝ) < 0 := by
        rw [Int.cast_lt_zero]; omega
      rw [Complex.arg_eq_neg_pi_div_two_iff.mpr ⟨hre, him⟩, abs_neg, abs_of_pos (by positivity)]
  simp only [angle]
  rw [abs_div, abs_mul, harg, abs_of_pos hpi, abs_of_pos (show (0 : ℝ) < 180 by norm_num)]
  field_simp
  ring

/-- With the weight 0 the filter keeps one copy of a segment that passes the
angle test and the sky-line test, and no copy otherwise. -/
theorem fit_lane_2_line_weight_zero (s : LaneDetectorObject) (l : Vec4i) :
    fit_lane_2_line Real.sqrt (fun a b => Complex.arg ⟨b, a⟩) Real.pi s [l] 0 =
      if |angle (fun a b => Complex.arg ⟨b, a⟩) Real.pi l| < 15 then []
      else if l.y1 < s._sky_line ∨ l.y2 < s._sky_line then [] else [l] := by
  simp [fit_lane_2_line]

/-- C15, counterexample: with the weight 0 and the sky line at row 100, the
horizontal segment `(100,300)-(200,300)` is kept once. -/
theorem fit_lane_2_line_keeps_horizontal :
    (⟨100, 300, 200, 300⟩ : Vec4i).y1 = (⟨100, 300, 200, 300⟩ : Vec4i).y2 ∧
    (⟨100, 300, 200, 300⟩ : Vec4i).x1 ≠ (⟨100, 300, 200, 300⟩ : Vec4i).x2 ∧
    (fit_lane_2_line Real.sqrt (fun a b => Complex.arg ⟨b, a⟩) Real.pi freshTracker
      [⟨100, 300, 200, 300⟩] 0).count ⟨100, 300, 200, 300⟩ = 1 := by
  refine ⟨by decide, by decide, ?_⟩
  have ha := abs_angle_horizontal ⟨100, 300, 200, 300⟩ (by decide) (by decide)
  have h1 : ¬ |angle (fun a b => Complex.arg ⟨b, a⟩) Real.pi ⟨100, 300, 200, 300⟩| < 15 := by
    rw [ha]; norm_num
  have h2 : ¬ ((⟨100, 300, 200, 300⟩ : Vec4i).y1 < freshTracker._sky_line ∨
      (⟨100, 300, 200, 300⟩ : Vec4i).y2 < freshTracker._sky_line) := by decide
  rw [fit_lane_2_line_weight_zero, if_neg h1, if_neg h2]
  decide

/-- C15, amended: a horizontal segment (`y1 == y2`, `x1 != x2`) has
`|angle| = 90`, so the angle test, which rejects `|angle| < 15`, lets it pass;
with the weight 0 the filter output holds exactly one copy of it when its row
is at or below the sky line (`y1 >= sky_line`) and no copy when `y1 < sky_line`. -/
theorem fit_lane_2_line_horizontal (l : Vec4i) (hy : l.y1 = l.y2) (hx : l.x1 ≠ l.x2) :
    |angle (fun a b => Complex.arg ⟨b, a⟩) Real.pi l| = 90 ∧
    ¬ |angle (fun a b => Complex.arg ⟨b, a⟩) Real.pi l| < 15 ∧
    ∀ s : LaneDetectorObject,
      fit_lane_2_line Real.sqrt (fun a b => Complex.arg ⟨b, a⟩) Real.pi s [l] 0 =
        if l.y1 < s._sky_line then [] else [l] := by
  have ha := abs_angle_horizontal l hy hx
  have h1 : ¬ |angle (fun a b => Complex.arg ⟨b, a⟩) Real.pi l| < 15 := by
    rw [ha]; norm_num
  refine ⟨ha, h1, fun s => ?_⟩
  rw [fit_lane_2_line_weight_zero, if_neg h1]
  by_cases hs : l.y1 < s._sky_line
  · rw [if_pos (Or.inl hs), if_pos hs]
  · rw [if_neg (by rw [← hy]; exact fun h => hs (h.elim id id)), if_neg hs]

/-- C15, witness: the horizontal segment `(100,300)-(200,300)` below the sky
line 100 and the horizontal segment `(100,50)-(200,50)` above it. -/
theorem fit_lane_2_line_horizontal_witness :
    fit_lane_2_line Real.sqrt (fun a b => Complex.arg ⟨b, a⟩) Real.pi freshTracker
      [⟨100, 300, 200, 300⟩] 0 = [⟨100, 300, 200, 300⟩] ∧
    fit_lane_2_line Real.sqrt (fun a b => Complex.arg ⟨b, a⟩) Real.pi freshTracker
      [⟨100, 50, 200, 50⟩] 0 = [] := by
  constructor
  · rw [(fit_lane_2_line_horizontal ⟨100, 300, 200, 300⟩ (by decide) (by decide)).2.2]
    decide
  · rw [(fit_lane_2_line_horizontal ⟨100, 50, 200, 50⟩ (by decide) (by decide)).2.2]
    decide

/-- C19, counterexample: with the weight 0 and the sky line at row 100, the
vertical segment `(100,200)-(100,400)` has angle 0 and is rejected, while the
same segment listed as `(100,400)-(100,200)` is kept. -/
theorem fit_lane_2_line_swap_differs :
    (⟨100, 200, 100, 400⟩ : Vec4i).swap = ⟨100, 400, 100, 200⟩ ∧
    fit_lane_2_line Real.sqrt (fun a b => Complex.arg ⟨b, a⟩) Real.pi freshTracker
      [⟨100, 200, 100, 400⟩] 0 = [] ∧
    fit_lane_2_line Real.sqrt (fun a b => Complex.arg ⟨b, a⟩) Real.pi freshTracker
      [⟨100, 400, 100, 200⟩] 0 = [⟨100, 400, 100, 200⟩] := by
  refine ⟨rfl, ?_, ?_⟩
  · have h0 : angle (fun a b => Complex.arg ⟨b, a⟩) Real.pi ⟨100, 200, 100, 400⟩ = 0 := by
      have harg : (⟨(((400 : Int) - 200 : Int) : ℝ), (((100 : Int) - 100 : Int) : ℝ)⟩ : ℂ).arg
          = 0 := by
        rw [Complex.arg_eq_zero_iff]
        norm_num
      simp only [angle, harg]
      simp
    have h1 : |angle (fun a b => Complex.arg ⟨b, a⟩) Real.pi ⟨100, 200, 100, 400⟩| < 15 := by
      rw [h0]; norm_num
    rw [fit_lane_2_line_weight_zero, if_pos h1]
  · have ha := angle_gt_of_y2_lt_y1 ⟨100, 400, 100, 200⟩ (by decide)
    have h1 : ¬ |angle (fun a b => Complex.arg ⟨b, a⟩) Real.pi ⟨100, 400, 100, 200⟩| < 15 := by
      rw [not_lt]; linarith
    have h2 : ¬ ((⟨100, 400, 100, 200⟩ : Vec4i).y1 < freshTracker._sky_line ∨
        (⟨100, 400, 100, 200⟩ : Vec4i).y2 < freshTracker._sky_line) := by decide
    rw [fit_lane_2_line_weight_zero, if_neg h1, if_neg h2]

/-- C19, amended: for the weight 0 and a segment with distinct endpoints, the
sky-line test gives the same verdict for the segment and for the
endpoint-swapped segment, and `|angle|` of the swapped segment is `180 - |angle|`
of the segment.  So when `15 <= |angle| <= 165` the filter keeps the segment
exactly when it keeps the swapped one, whereas a segment with `|angle| < 15` is
rejected and its swapped segment is kept whenever both endpoints have
`y >= sky_line`. -/
theorem fit_lane_2_line_swap (s : LaneDetectorObject) (l : Vec4i)
    (hne : l.x1 ≠ l.x2 ∨ l.y1 ≠ l.y2) :
    |angle (fun a b => Complex.arg ⟨b, a⟩) Real.pi l.swap| =
      180 - |angle (fun a b => Complex.arg ⟨b, a⟩) Real.pi l| ∧
    ((l.swap.y1 < s._sky_line ∨ l.swap.y2 < s._sky_line) ↔
      (l.y1 < s._sky_line ∨ l.y2 < s._sky_line)) ∧
    (15 ≤ |angle (fun a b => Complex.arg ⟨b, a⟩) Real.pi l| →
      |angle (fun a b => Complex.arg ⟨b, a⟩) Real.pi l| ≤ 165 →
      (fit_lane_2_line Real.sqrt (fun a b => Complex.arg ⟨b, a⟩) Real.pi s [l] 0 = [l] ↔
        fit_lane_2_line Real.sqrt (fun a b => Complex.arg ⟨b, a⟩) Real.pi s [l.swap] 0 =
          [l.swap])) ∧
    (|angle (fun a b => Complex.arg ⟨b, a⟩) Real.pi l| < 15 →
      fit_lane_2_line Real.sqrt (fun a b => Complex.arg ⟨b, a⟩) Real.pi s [l] 0 = [] ∧
      (s._sky_line ≤ l.y1 → s._sky_line ≤ l.y2 →
        fit_lane_2_line Real.sqrt (fun a b => Complex.arg ⟨b, a⟩) Real.pi s [l.swap] 0 =
          [l.swap])) := by
  have hsw := abs_angle_swap l hne
  have hsky : (l.swap.y1 < s._sky_line ∨ l.swap.y2 < s._sky_line) ↔
      (l.y1 < s._sky_line ∨ l.y2 < s._sky_line) := by
    simp only [Vec4i.swap]
    exact or_comm
  refine ⟨hsw, hsky, fun h15 h165 => ?_, fun hlt => ⟨?_, fun hy1 hy2 => ?_⟩⟩
  · have h1 : ¬ |angle (fun a b => Complex.arg ⟨b, a⟩) Real.pi l| < 15 := not_lt.mpr h15
    have h2 : ¬ |angle (fun a b => Complex.arg ⟨b, a⟩) Real.pi l.swap| < 15 := by
      rw [hsw, not_lt]; linarith
    rw [fit_lane_2_line_weight_zero, fit_lane_2_line_weight_zero, if_neg h1, if_neg h2]
    by_cases hs : l.y1 < s._sky_line ∨ l.y2 < s._sky_line
    · rw [if_pos hs, if_pos (hsky.mpr hs)]
      simp
    · rw [if_neg hs, if_neg (fun h => hs (hsky.mp h))]
      simp
  · rw [fit_lane_2_line_weight_zero, if_pos hlt]
  · have h2 : ¬ |angle (fun a b => Complex.arg ⟨b, a⟩) Real.pi l.swap| < 15 := by
      rw [hsw, not_lt]; linarith
    have h3 : ¬ (l.swap.y1 < s._sky_line ∨ l.swap.y2 < s._sky_line) := by
      rw [hsky]; omega
    rw [fit_lane_2_line_weight_zero, if_neg h2, if_neg h3]

/-- C19, witness: the horizontal segment `(100,300)-(200,300)` and its swapped
segment, both of `|angle| = 90`, are both kept. -/
theorem fit_lane_2_line_swap_witness :
    ((⟨100, 300, 200, 300⟩ : Vec4i).x1 ≠ (⟨100, 300, 200, 300⟩ : Vec4i).x2 ∨
      (⟨100, 300, 200, 300⟩ : Vec4i).y1 ≠ (⟨100, 300, 200, 300⟩ : Vec4i).y2) ∧
    (fit_lane_2_line Real.sqrt (fun a b => Complex.arg ⟨b, a⟩) Real.pi freshTracker
        [⟨100, 300, 200, 300⟩] 0 = [⟨100, 300, 200, 300⟩] ↔
      fit_lane_2_line Real.sqrt (fun a b => Complex.arg ⟨b, a⟩) Real.pi freshTracker
        [(⟨100, 300, 200, 300⟩ : Vec4i).swap] 0 = [(⟨100, 300, 200, 300⟩ : Vec4i).swap]) := by
  have ha := abs_angle_horizontal ⟨100, 300, 200, 300⟩ (by decide) (by decide)
  exact ⟨Or.inl (by decide),
    (fit_lane_2_line_swap freshTracker ⟨100, 300, 200, 300⟩ (Or.inl (by decide))).2.2.1
      (by rw [ha]; norm_num) (by rw [ha]; norm_num)⟩

/-! ## Cluster means -/

/-- The counting loop of `grp_line` when every label is 0: the single counter
grows by the number of segments, starting from what the array held. -/
theorem count_loop_one_class (n : Nat) (c : Int) :
    (List.replicate n 0).foldlM (fun (st : List Int × List Vec4i) (lab : Nat) =>
      match st.1.get? lab with
      | some c => if lab < st.2.length then some (st.1.set lab (c + 1), st.2.set lab ⟨0, 0, 0, 0⟩)
                  else none
      | none => none) ([c], [NIL_LANE]) = some ([c + n], [NIL_LANE]) := by
  induction n generalizing c with
  | zero => simp
  | succ k ih =>
    rw [List.replicate_succ, List.foldlM_cons]
    simp only [List.get?_cons_zero, List.length_singleton, Nat.lt_one_iff, if_true,
      List.set_cons_zero, Option.bind_eq_bind, Option.some_bind]
    rw [show c + ((k + 1 : Nat) : Int) = c + 1 + k by push_cast; ring]
    exact ih (c + 1)

/-- The summing loop of `grp_line` when every label is 0 and `idx = [0]`: after
`k` rounds `mean[0]` is the sum of the first `k` segments. -/
theorem sum_loop_one_class (lines : List Vec4i) (k : Nat) (hk : k ≤ lines.length) :
    (List.range k).foldlM (fun (mean : List Vec4i) (i : Nat) =>
      match lines.get? i, (lines.map (fun _ => 0)).get? i with
      | some l, some lab =>
        match ([0] : List Nat).get? lab with
        | some j =>
          match mean.get? j with
          | some m => some (mean.set j (m.add l))
          | none => none
        | none => none
      | _, _ => none) [NIL_LANE] = some [vec_sum (lines.take k)] := by
  induction k with
  | zero => simp [vec_sum]
  | succ k ih =>
    have hk' : k < lines.length := hk
    rw [List.range_succ, List.foldlM_append, ih (Nat.le_of_lt hk')]
    simp only [Option.bind_eq_bind, Option.some_bind, List.foldlM_cons, List.foldlM_nil]
    have h1 : lines.get? k = some (lines.get ⟨k, hk'⟩) := List.get?_eq_get hk'
    have h2 : (lines.map (fun _ => (0 : Nat))).get? k = some 0 := by
      rw [List.get?_eq_getElem?, List.getElem?_map, ← List.get?_eq_getElem?, h1]; rfl
    simp only [h1, h2, List.get?_cons_zero, List.set_cons_zero, Option.bind_eq_bind,
      Option.some_bind, Option.pure_def]
    congr 2
    simp only [vec_sum]
    rw [List.take_succ, List.foldl_append, List.getElem?_eq_getElem hk']
    rfl

/-- For a single class the array `mean` holds one segment: the sum of all
segments divided by what `count_line[0]` held at first plus the number of
segments. -/
theorem grp_line_mean_one_class {α : Type} [LinearOrderedField α] (atan2 : α → α → α) (pi : α)
    (env : GrpEnv α) (lines : List Vec4i)
    (hpart : env.partition (DistanceCalc atan2 pi env.threshold) lines =
      (lines.map (fun _ => 0), 1))
    (hsort : ∀ c : Int, env.c_qsort [c] [0] 1 = ([c], [0])) :
    grp_line_mean atan2 pi env lines =
      some (1, [env.vec_div (vec_sum lines) (env.count_line_init 0 + lines.length)]) := by
  have hlab : lines.map (fun _ => (0 : Nat)) = List.replicate lines.length 0 := by
    simp
  have h1 := count_loop_one_class lines.length (env.count_line_init 0)
  have h2 := sum_loop_one_class lines lines.length (le_refl _)
  rw [List.take_length] at h2
  unfold grp_line_mean
  simp only [hpart]
  have hr : List.range 1 = [0] := rfl
  have hrep : List.replicate 1 NIL_LANE = [NIL_LANE] := rfl
  simp only [hr, hrep, List.map_cons, List.map_nil]
  rw [hlab] at h2 ⊢
  rw [h1]
  simp only [Option.some_bind, hsort]
  rw [h2]
  simp

/-- C11 (the code departs from the claim): for a single class the lane is
chosen by the bottom-row intercept of `mean[0]` against `width/2` as the claim
says, but `mean[0]` is the sum of the segments divided by the number of
segments plus whatever the uninitialised `count_line[0]` held.  For two segments
with the arithmetic mean `(110,480)-(160,240)` and a slot holding 2, the divisor
is 4 and the left lane is `(55,240)-(80,120)`; only a slot holding 0 gives the
arithmetic mean. -/
theorem grp_line_one_cluster_mean :
    (∀ (env : GrpEnv ℝ) (s : LaneDetectorObject) (lines : List Vec4i) (a : Point),
      lines.length ≠ 0 →
      env.partition (DistanceCalc (fun a b => Complex.arg ⟨b, a⟩) Real.pi env.threshold) lines =
        (lines.map (fun _ => 0), 1) →
      (∀ c : Int, env.c_qsort [c] [0] 1 = ([c], [0])) →
      get_point (env.vec_div (vec_sum lines) (env.count_line_init 0 + lines.length))
        (s._height : Int) = some a →
      grp_line (fun a b => Complex.arg ⟨b, a⟩) Real.pi env s lines =
        some (if a.x < s._width.tdiv 2 then
            { s with
              _left_lane := env.vec_div (vec_sum lines) (env.count_line_init 0 + lines.length),
              _right_lane := NIL_LANE }
          else
            { s with
              _left_lane := NIL_LANE,
              _right_lane :=
                env.vec_div (vec_sum lines) (env.count_line_init 0 + lines.length) })) ∧
    grp_line (fun a b => Complex.arg ⟨b, a⟩) Real.pi (oneClassEnv ℝ 2) freshTracker
      [⟨100, 480, 150, 240⟩, ⟨120, 480, 170, 240⟩] =
        some { freshTracker with _left_lane := ⟨55, 240, 80, 120⟩ } ∧
    grp_line (fun a b => Complex.arg ⟨b, a⟩) Real.pi (oneClassEnv ℝ 0) freshTracker
      [⟨100, 480, 150, 240⟩, ⟨120, 480, 170, 240⟩] =
        some { freshTracker with _left_lane := ⟨110, 480, 160, 240⟩ } ∧
    vec_tdiv (vec_sum [⟨100, 480, 150, 240⟩, ⟨120, 480, 170, 240⟩]) 2 =
      ⟨110, 480, 160, 240⟩ := by
  have hm2 : grp_line_mean (fun a b => Complex.arg ⟨b, a⟩) Real.pi (oneClassEnv ℝ 2)
      [⟨100, 480, 150, 240⟩, ⟨120, 480, 170, 240⟩] = some (1, [⟨55, 240, 80, 120⟩]) := by
    decide
  have hm0 : grp_line_mean (fun a b => Complex.arg ⟨b, a⟩) Real.pi (oneClassEnv ℝ 0)
      [⟨100, 480, 150, 240⟩, ⟨120, 480, 170, 240⟩] = some (1, [⟨110, 480, 160, 240⟩]) := by
    decide
  refine ⟨fun env s lines a hne hpart hsort ha => ?_, ?_, ?_, by decide⟩
  · have hm := grp_line_mean_one_class (fun a b => Complex.arg ⟨b, a⟩) Real.pi env lines
      hpart hsort
    have hc : ¬ (1 : Nat) ≥ 2 := by decide
    simp only [grp_line, if_neg hne, hm, if_neg hc, List.get?_cons_zero, ha]
    split <;> rfl
  · simp only [grp_line, hm2, get_point_intCast]
    decide
  · simp only [grp_line, hm0, get_point_intCast]
    decide

/-- C13 (the code departs from the claim): six segments in classes of 1, 3 and
2 members, with `c_qsort` ranking the classes by descending count.  The sums
are stored at `mean[idx[label]]`, so `mean[0]` is the sum of the class of two
members divided by 3 and `mean[1]` is the single member of the smallest class
divided by 2; the lanes are chosen from these two, not from the means
`(100,480)-(150,240)` and `(300,480)-(240,240)` of the two largest classes, and
another segment in the smallest class changes `mean[1]`. -/
theorem grp_line_mean_three_clusters :
    (rankedEnv ℝ).partition
        (DistanceCalc (fun a b => Complex.arg ⟨b, a⟩) Real.pi (rankedEnv ℝ).threshold)
        threeClusters = ([0, 1, 1, 1, 2, 2], 3) ∧
    (rankedEnv ℝ).c_qsort [1, 3, 2] [0, 1, 2] 3 = ([3, 2, 1], [1, 2, 0]) ∧
    grp_line_mean (fun a b => Complex.arg ⟨b, a⟩) Real.pi (rankedEnv ℝ) threeClusters =
      some (3, [⟨200, 320, 160, 160⟩, ⟨0, 150, 200, 100⟩, ⟨300, 1440, 450, 720⟩]) ∧
    grp_line (fun a b => Complex.arg ⟨b, a⟩) Real.pi (rankedEnv ℝ) freshTracker threeClusters =
      some { freshTracker with
        _left_lane := ⟨0, 150, 200, 100⟩, _right_lane := ⟨200, 320, 160, 160⟩ } ∧
    grp_line_mean (fun a b => Complex.arg ⟨b, a⟩) Real.pi (rankedEnv ℝ) threeClustersAlt =
      some (3, [⟨200, 320, 160, 160⟩, ⟨0, 150, 200, 50⟩, ⟨300, 1440, 450, 720⟩]) := by
  have hm : grp_line_mean (fun a b => Complex.arg ⟨b, a⟩) Real.pi (rankedEnv ℝ) threeClusters =
      some (3, [⟨200, 320, 160, 160⟩, ⟨0, 150, 200, 100⟩, ⟨300, 1440, 450, 720⟩]) := by
    decide
  refine ⟨by decide, by decide, hm, ?_, by decide⟩
  have h0 := angle_gt_of_y2_lt_y1 ⟨200, 320, 160, 160⟩ (by decide)
  have h1 := angle_gt_of_y2_lt_y1 ⟨0, 150, 200, 100⟩ (by decide)
  have hang : 15 < |angle (fun a b => Complex.arg ⟨b, a⟩) Real.pi ⟨200, 320, 160, 160⟩| ∧
      15 < |angle (fun a b => Complex.arg ⟨b, a⟩) Real.pi ⟨0, 150, 200, 100⟩| :=
    ⟨by linarith, by linarith⟩
  have hne : ¬ threeClusters.length = 0 := by decide
  have hge : (3 : Nat) ≥ 2 := by decide
  have hg0 : ([⟨200, 320, 160, 160⟩, ⟨0, 150, 200, 100⟩, ⟨300, 1440, 450, 720⟩] :
      List Vec4i).get? 0 = some ⟨200, 320, 160, 160⟩ := rfl
  have hg1 : ([⟨200, 320, 160, 160⟩, ⟨0, 150, 200, 100⟩, ⟨300, 1440, 450, 720⟩] :
      List Vec4i).get? 1 = some ⟨0, 150, 200, 100⟩ := rfl
  simp only [grp_line, if_neg hne, hm, if_pos hge, hg0, hg1, if_pos hang, get_point_intCast]
  decide

/-! ## Guards in front of `get_point` -/

/-- C14, counterexample: on the single horizontal segment `(100,300)-(200,300)`
the mean segment is that segment, `grp_line` applies `get_point` to it, and the
intercept is undefined. -/
theorem grp_line_get_point_horizontal :
    grp_line_get_point_args (fun a b => Complex.arg ⟨b, a⟩) Real.pi (exampleEnv ℝ)
      [⟨100, 300, 200, 300⟩] = some [⟨100, 300, 200, 300⟩] ∧
    (⟨100, 300, 200, 300⟩ : Vec4i).y1 = (⟨100, 300, 200, 300⟩ : Vec4i).y2 ∧
    (⟨100, 300, 200, 300⟩ : Vec4i) ≠ NIL_LANE ∧
    get_point ⟨100, 300, 200, 300⟩ (freshTracker._height : Int) = none ∧
    grp_line (fun a b => Complex.arg ⟨b, a⟩) Real.pi (exampleEnv ℝ) freshTracker
      [⟨100, 300, 200, 300⟩] = none := by
  have hm : grp_line_mean (fun a b => Complex.arg ⟨b, a⟩) Real.pi (exampleEnv ℝ)
      [⟨100, 300, 200, 300⟩] = some (1, [⟨100, 300, 200, 300⟩]) := by
    decide
  refine ⟨?_, by decide, by decide, ?_, ?_⟩
  · simp only [grp_line_get_point_args, hm]
    decide
  · rw [get_point_intCast]; decide
  · simp only [grp_line, hm, get_point_intCast]
    decide

/-- C14, amended: in front of `get_point` the callers test only for NIL, never
for `y1 == y2`.  `update` applies `get_point` to the lanes that are not NIL and
`get_err_angle` applies it to `previous_lane` only when that is not NIL.  For a
single class `grp_line` applies `get_point` to the mean segment whatever its
endpoints are, and for two or more classes to both candidates whenever both
pass the angle check; a mean segment with `y1 == y2` is handed to `get_point`,
where the intercept is undefined, and is not treated as NIL. -/
theorem get_point_guards {α : Type} [LinearOrderedField α] (atan2 : α → α → α) (pi : α)
    (env : GrpEnv α) (s : LaneDetectorObject) (lines : List Vec4i) (count : Nat)
    (mean : List Vec4i)
    (hne : lines.length ≠ 0)
    (hmean : grp_line_mean atan2 pi env lines = some (count, mean)) :
    (∀ l ∈ update_draw_get_point_args s, l ≠ NIL_LANE) ∧
    (s._left_lane ≠ NIL_LANE → s._left_lane ∈ update_draw_get_point_args s) ∧
    (s._right_lane ≠ NIL_LANE → s._right_lane ∈ update_draw_get_point_args s) ∧
    (∀ l ∈ get_err_angle_pr_args s, l ≠ NIL_LANE) ∧
    (s._pre_lane ≠ NIL_LANE → s._pre_lane ∈ get_err_angle_pr_args s) ∧
    (count < 2 → ∀ m0, mean.get? 0 = some m0 →
      grp_line_get_point_args atan2 pi env lines = some [m0] ∧
      (m0.y1 = m0.y2 → get_point m0 (s._height : Int) = none ∧
        grp_line atan2 pi env s lines = none)) ∧
    (2 ≤ count → ∀ m0 m1, mean.get? 0 = some m0 → mean.get? 1 = some m1 →
      15 < |angle atan2 pi m0| ∧ 15 < |angle atan2 pi m1| →
      grp_line_get_point_args atan2 pi env lines = some [m0, m1] ∧
      (m0.y1 = m0.y2 ∨ m1.y1 = m1.y2 → grp_line atan2 pi env s lines = none)) := by
  have hhor : ∀ (m : Vec4i) (y : ℚ), m.y1 = m.y2 → get_point m y = none := by
    intro m y h
    simp [get_point, h]
  refine ⟨?_, ?_, ?_, ?_, ?_, ?_, ?_⟩
  · intro l hl
    simp only [update_draw_get_point_args, List.mem_append] at hl
    rcases hl with hl | hl
    · split at hl
      · rename_i h
        simp only [List.mem_cons, or_self, List.mem_singleton, List.not_mem_nil, or_false] at hl
        rw [hl]; exact h
      · simp at hl
    · split at hl
      · rename_i h
        simp only [List.mem_cons, or_self, List.mem_singleton, List.not_mem_nil, or_false] at hl
        rw [hl]; exact h
      · simp at hl
  · intro h
    simp [update_draw_get_point_args, h]
  · intro h
    simp [update_draw_get_point_args, h]
  · intro l hl
    simp only [get_err_angle_pr_args] at hl
    split at hl
    · rename_i h
      simp only [List.mem_singleton] at hl
      rw [hl]; exact h
    · simp at hl
  · intro h
    simp [get_err_angle_pr_args, h]
  · intro hc m0 h0
    have hc' : ¬ count ≥ 2 := by omega
    refine ⟨?_, fun hy => ⟨hhor _ _ hy, ?_⟩⟩
    · simp only [grp_line_get_point_args, if_neg hne, hmean, if_neg hc', h0]
    · simp only [grp_line, if_neg hne, hmean, if_neg hc', h0, hhor _ _ hy]
  · intro hc m0 m1 h0 h1 hang
    have hc' : count ≥ 2 := hc
    refine ⟨?_, fun hy => ?_⟩
    · simp only [grp_line_get_point_args, if_neg hne, hmean, if_pos hc', h0, h1, if_pos hang]
    · rcases hy with hy | hy
      · simp only [grp_line, if_neg hne, hmean, if_pos hc', h0, h1, if_pos hang, hhor _ _ hy]
      · simp only [grp_line, if_neg hne, hmean, if_pos hc', h0, h1, if_pos hang, hhor _ _ hy]
        cases get_point m0 (s._height : Int) <;> rfl

/-- C14, witness: one segment `(100,480)-(150,240)` on the fresh tracker;
`grp_line` applies `get_point` to it, and afterwards `update` draws the left
lane only. -/
theorem get_point_guards_witness :
    grp_line_mean (fun a b => Complex.arg ⟨b, a⟩) Real.pi (exampleEnv ℝ)
      [⟨100, 480, 150, 240⟩] = some (1, [⟨100, 480, 150, 240⟩]) ∧
    grp_line_get_point_args (fun a b => Complex.arg ⟨b, a⟩) Real.pi (exampleEnv ℝ)
      [⟨100, 480, 150, 240⟩] = some [⟨100, 480, 150, 240⟩] ∧
    (∀ l ∈ update_draw_get_point_args leftOnly, l ≠ NIL_LANE) := by
  have hm : grp_line_mean (fun a b => Complex.arg ⟨b, a⟩) Real.pi (exampleEnv ℝ)
      [⟨100, 480, 150, 240⟩] = some (1, [⟨100, 480, 150, 240⟩]) := by
    decide
  have h := get_point_guards (fun a b => Complex.arg ⟨b, a⟩) Real.pi (exampleEnv ℝ) leftOnly
    [⟨100, 480, 150, 240⟩] 1 [⟨100, 480, 150, 240⟩] (by decide) hm
  exact ⟨hm, (h.2.2.2.2.2.1 (by decide) _ rfl).1, h.1⟩

end LaneDetect
